import Mathlib

/-!
Verification of the dmg_asm Game Boy assembler core against its specification.

This file gives a shallow embedding, in Lean 4, of the parts of the
`dmg_asm` Python source that the specification's claims are about:

* `core/expression.py`  — the `Expression` literal parser and its operators;
* `core/descriptor.py`  — the `BaseDescriptor` validators and the six
  canonical descriptors;
* `core/symbol.py`      — `Symbol` name validation and scope determination;
* `directives/storage.py` — the `StorageParser` handlers for `DS` and `DW`;
* `directives/section.py` — `Section.starting_address` and the memory-block
  table;
* `cpu/instruction_pointer.py` — the `InstructionPointer` state machine.

Strings are modelled as `List Char`; Python integers as `Int`/`Nat` (all the
values involved are small and overflow-free, so no wrap-around modelling is
needed); raised exceptions as `Except` errors.  Python `str.strip()` is
`pstrip`, `str.startswith`/`endswith` are `List.isPrefixOf`/`isSuffixOf`
on `List Char`.
-/

set_option maxRecDepth 10000

namespace DmgAsm

/-- Whitespace characters removed by Python `str.strip()` (ASCII subset:
space, tab, newline, vertical tab, form feed, carriage return). -/
def isSpc (c : Char) : Bool :=
  c.toNat = 32 || (9 ≤ c.toNat && c.toNat ≤ 13)

/-- Python `str.strip()`: drop leading and trailing whitespace. -/
def pstrip (l : List Char) : List Char :=
  ((l.dropWhile isSpc).reverse.dropWhile isSpc).reverse

/-- Membership in Python `string.digits`. -/
def isDigitCh (c : Char) : Bool := 48 ≤ c.toNat && c.toNat ≤ 57

/-- Membership in Python `string.hexdigits` (`0-9a-fA-F`). -/
def isHexCh (c : Char) : Bool :=
  isDigitCh c || (97 ≤ c.toNat && c.toNat ≤ 102) || (65 ≤ c.toNat && c.toNat ≤ 70)

/-- Membership in Python `string.octdigits`. -/
def isOctCh (c : Char) : Bool := 48 ≤ c.toNat && c.toNat ≤ 55

/-- Membership in the binary charset `"01"`. -/
def isBinCh (c : Char) : Bool := c.toNat = 48 || c.toNat = 49

/-- Membership in Python `string.ascii_letters`. -/
def isLetterCh (c : Char) : Bool :=
  (65 ≤ c.toNat && c.toNat ≤ 90) || (97 ≤ c.toNat && c.toNat ≤ 122)

/-- Membership in Python `string.punctuation` (the 32 ASCII punctuation
characters). -/
def isPunctCh (c : Char) : Bool :=
  (33 ≤ c.toNat && c.toNat ≤ 47) || (58 ≤ c.toNat && c.toNat ≤ 64) ||
  (91 ≤ c.toNat && c.toNat ≤ 96) || (123 ≤ c.toNat && c.toNat ≤ 126)

/-- The single-quote character. -/
def quoteS : Char := Char.ofNat 39

/-- The double-quote character. -/
def quoteD : Char := Char.ofNat 34

/-- Charset of `BASE_STR` in `descriptor.py`: digits, letters, punctuation
with the two quote characters removed, and the space character. -/
def isStrCh (c : Char) : Bool :=
  isDigitCh c || isLetterCh c ||
  (isPunctCh c && c.toNat ≠ 39 && c.toNat ≠ 34) || c.toNat = 32

/-- Charset of `BASE_LAB` in `descriptor.py`: digits, letters, underscore. -/
def isLabCh (c : Char) : Bool := isDigitCh c || isLetterCh c || c.toNat = 95

/-- The `MinMax` named tuple of `core/constants.py`. -/
structure MinMax where
  min : Nat
  max : Nat
  deriving DecidableEq, Repr

/-- The constant `MAX_16BIT_VALUE` of `core/constants.py`. -/
def MAX_16BIT_VALUE : Nat := 0xffff

/-- The constant `MAX_8BIT_VALUE` of `core/constants.py`. -/
def MAX_8BIT_VALUE : Nat := 0xff

/-- The constant `MAX_SYMBOL_LENGTH` of `core/constants.py` (line 39). -/
def MAX_SYMBOL_LENGTH : Nat := 25

/-- Modelled from the spec: the constant `NUMERIC_BASES` is imported by
`core/expression.py` and `core/descriptor.py` from `core/constants.py` but
is missing from the `constants.py` under `src/`; the spec lists the numeric
bases as "2, 8, 10, or 16" with `LABEL` and `STRING` as the two non-numeric
sentinel bases. -/
def NUMERIC_BASES : List Int := [2, 8, 10, 16]

/-- Base tag `BASE_STR` of `descriptor.py`. -/
def BASE_STR : Int := -1

/-- Base tag `BASE_LAB` of `descriptor.py`. -/
def BASE_LAB : Int := 0

/-- A `BaseDescriptor` of `core/descriptor.py`, flattened together with its
`DescriptorArgs` (fields `chars`, `limits`, `base`; the `charset` field is
the function `charsetOf base`). -/
structure BaseDescriptor where
  chars : MinMax
  limits : MinMax
  base : Int
  deriving DecidableEq, Repr

/-- The `bases` charset dictionary of `BaseDescriptor`, as a predicate. -/
def charsetOf (base : Int) (c : Char) : Bool :=
  if base = 16 then isHexCh c
  else if base = 10 then isDigitCh c
  else if base = 8 then isOctCh c
  else if base = 2 then isBinCh c
  else if base = 0 then isLabCh c
  else isStrCh c

/-- The `limits` property of `BaseDescriptor`: for the string/label bases it
returns the `chars` range, otherwise the `limits` range. -/
def BaseDescriptor.limitsProp (d : BaseDescriptor) : MinMax :=
  if d.base = BASE_STR ∨ d.base = BASE_LAB then d.chars else d.limits

/-- `DEC_DSC` of `descriptor.py`. -/
def DEC_DSC : BaseDescriptor := ⟨⟨1, 6⟩, ⟨0, MAX_16BIT_VALUE + 1⟩, 10⟩

/-- `HEX_DSC` of `descriptor.py`. -/
def HEX_DSC : BaseDescriptor := ⟨⟨2, 3⟩, ⟨0, MAX_8BIT_VALUE + 1⟩, 16⟩

/-- `HEX16_DSC` of `descriptor.py`. -/
def HEX16_DSC : BaseDescriptor := ⟨⟨2, 5⟩, ⟨0, MAX_16BIT_VALUE + 1⟩, 16⟩

/-- `BIN_DSC` of `descriptor.py`. -/
def BIN_DSC : BaseDescriptor := ⟨⟨2, 9⟩, ⟨0, MAX_8BIT_VALUE + 1⟩, 2⟩

/-- `OCT_DSC` of `descriptor.py`. -/
def OCT_DSC : BaseDescriptor := ⟨⟨1, 7⟩, ⟨0, MAX_16BIT_VALUE + 1⟩, 8⟩

/-- `LBL_DSC` of `descriptor.py`. -/
def LBL_DSC : BaseDescriptor := ⟨⟨1, 33⟩, ⟨0, 0⟩, BASE_LAB⟩

/-- `STR_DSC` of `descriptor.py`. -/
def STR_DSC : BaseDescriptor := ⟨⟨1, 256⟩, ⟨0, 0⟩, BASE_STR⟩

/-- Value of a digit character, as used by Python `int(str, base)` for the
charset-validated words of this code base. -/
def digitVal (c : Char) : Nat :=
  if 48 ≤ c.toNat ∧ c.toNat ≤ 57 then c.toNat - 48
  else if 65 ≤ c.toNat ∧ c.toNat ≤ 70 then c.toNat - 55
  else if 97 ≤ c.toNat ∧ c.toNat ≤ 102 then c.toNat - 87
  else 0

/-- Python `int(word, base)` on a word made of valid base digits. -/
def digitsToNat (base : Nat) (w : List Char) : Nat :=
  w.foldl (fun acc c => acc * base + digitVal c) 0

/-- Digit character for the value `n < 16`, uppercase (as produced by the
Python format specifier `X`; decimal, octal and binary formats only reach
the first branch). -/
def digitChar' (n : Nat) : Char :=
  if n < 10 then Char.ofNat (48 + n) else Char.ofNat (55 + n)

/-- Digits of `v` in base `b`, most significant first, as produced by the
Python `format` machinery (no padding). -/
def natToDigits (b : Nat) (v : Nat) : List Char :=
  if _h : b < 2 then []
  else if v < b then [digitChar' v]
  else natToDigits b (v / b) ++ [digitChar' (v % b)]
termination_by v
decreasing_by
  exact Nat.div_lt_self (by omega) (by omega)

/-- Left-pad a digit string with zeros to a minimum width, as done by the
Python format specifiers `02X`, `04X`, `02d`, `08b`, `08o`. -/
def padLeft (width : Nat) (l : List Char) : List Char :=
  List.replicate (width - l.length) (Char.ofNat 48) ++ l

/-- Error outcomes of the embedded code.  Each constructor stands for one of
the exception classes of `core/exception.py` (the expression and descriptor
errors) or of the directive modules (storage, bank, align errors); `valueErr`
is Python's built-in `ValueError`, `overflowErr` its `OverflowError`. -/
inductive Err where
  | syntaxErr | typeErr | radixErr | radixDigitErr | minMaxLenErr
  | minMaxValErr | valueErr | overflowErr | storageErr | bankErr | alignErr
  deriving DecidableEq, Repr

/-- The `ExpressionType` tags of `core/expression.py`. -/
inductive EType where
  | binary | character | decimal | hexidecimal | invalid | octal
  deriving DecidableEq, Repr

/-- The `_Elements` dataclass of `core/expression.py` as produced for a
successfully validated expression (fields `prefix`, `word`, `suffix`). -/
structure Elements where
  pfx : List Char
  word : List Char
  sfx : List Char
  deriving DecidableEq, Repr

/-- The `_Elements` dataclass as returned by `_Validator.get_elements`,
where each part may be Python `None`. -/
structure ElementsOpt where
  pfx : Option (List Char)
  word : Option (List Char)
  sfx : Option (List Char)
  deriving DecidableEq, Repr

/-- The `_Components` dataclass of `core/expression.py` (fields
`descriptor`, `type`, `pwords`, `fmt`).  A successfully constructed
`Expression` object is exactly a validated `_Components` value (the
`Expression`'s `_int_value` cache is recomputed here on demand by
`integerValue`). -/
structure Components where
  descriptor : BaseDescriptor
  etype : EType
  pwords : Elements
  fmt : List Char
  deriving DecidableEq, Repr

/-- The ordered `_prefixes` list of `_Validator` (order matters: `0x` is
tested before `0`, `$$` before `$`). -/
def pfxList : List (List Char) :=
  [['0', 'x'], ['0'], ['$', '$'], ['$'], ['&'], ['%'], [quoteS], [quoteD]]

/-- First matching entry of `_prefixes`, as computed by the list
comprehension in `_Validator.get_elements`. -/
def findPfx (l : List Char) : Option (List Char) :=
  pfxList.find? (fun p => p.isPrefixOf l)

/-- Python `str.removesuffix`. -/
def removeSfx (w sfx : List Char) : List Char :=
  if sfx ≠ [] ∧ sfx.isSuffixOf w then w.take (w.length - sfx.length) else w

/-- The format-string tag `02X`. -/
def fmtX02 : List Char := ['0', '2', 'X']

/-- The format-string tag `04X`. -/
def fmtX04 : List Char := ['0', '4', 'X']

/-- The format-string tag `02d`. -/
def fmtD02 : List Char := ['0', '2', 'd']

/-- The format-string tag `08b`. -/
def fmtB08 : List Char := ['0', '8', 'b']

/-- The format-string tag `08o`. -/
def fmtO08 : List Char := ['0', '8', 'o']

/-- The format-string tag `.255s`. -/
def fmtS255 : List Char := ['.', '2', '5', '5', 's']

/-- `_Validator.get_elements`: split an expression string into prefix, word
and suffix.  A missing prefix yields all-`None`; a quote prefix without a
matching closing quote yields a `None` word and suffix. -/
def getElements (l : List Char) : ElementsOpt :=
  match findPfx l with
  | none => ⟨none, none, none⟩
  | some p =>
    if p = [quoteS] ∨ p = [quoteD] then
      if p.isSuffixOf l then
        ⟨some p, some (removeSfx (l.drop p.length) p), some p⟩
      else ⟨some p, none, none⟩
    else ⟨some p, some (removeSfx (l.drop p.length) []), some []⟩

/-- Descriptor, expression type and format chosen by the `match` statement
of `_Validator.get_expr_components`, given prefix and word. -/
def selectComponents (p w sfx : List Char) : Except Err Components :=
  if p = ['$'] ∨ p = ['0', 'x'] then
    .ok ⟨if w.length > 2 then HEX16_DSC else HEX_DSC, .hexidecimal, ⟨p, w, sfx⟩,
         if w.length > 2 then fmtX04 else fmtX02⟩
  else if p = ['$', '$'] then .ok ⟨HEX16_DSC, .hexidecimal, ⟨p, w, sfx⟩, fmtX04⟩
  else if p = ['0'] then .ok ⟨DEC_DSC, .decimal, ⟨p, w, sfx⟩, fmtD02⟩
  else if p = [quoteD] ∨ p = [quoteS] then .ok ⟨STR_DSC, .character, ⟨p, w, sfx⟩, fmtS255⟩
  else if p = ['%'] then .ok ⟨BIN_DSC, .binary, ⟨p, w, sfx⟩, fmtB08⟩
  else if p = ['&'] then .ok ⟨OCT_DSC, .octal, ⟨p, w, sfx⟩, fmtO08⟩
  else .error .syntaxErr

/-- Body of `_Validator.get_expr_components` after its own `strip()`:
length check, element split, affix checks, descriptor selection. -/
def coreComponents (expr : List Char) : Except Err Components :=
  if expr.length < 3 then .error .syntaxErr
  else
    match getElements expr with
    | ⟨none, _, _⟩ => .error .syntaxErr
    | ⟨some p, wordOpt, sfxOpt⟩ =>
      match sfxOpt, wordOpt with
      | some sfx, some w => selectComponents p w sfx
      | _, _ => .error .syntaxErr

/-- `_Validator.get_expr_components` (it strips its argument again). -/
def getExprComponents (t : List Char) : Except Err Components :=
  coreComponents (pstrip t)

/-- `BaseDescriptor.validate` of `core/descriptor.py`: charset check, then
character-count range check, then (for numeric bases) value range check,
then (for string/label bases) leading-letter check. -/
def validateDesc (d : BaseDescriptor) (value : List Char) : Except Err Unit :=
  if ¬ (value.all (charsetOf d.base)) then .error .radixDigitErr
  else if ¬ (d.chars.min ≤ value.length ∧ value.length < d.chars.max) then
    .error .minMaxLenErr
  else if d.base ∈ NUMERIC_BASES then
    let decVal := digitsToNat d.base.toNat value
    if ¬ (d.limits.min ≤ decVal ∧ decVal < d.limits.max) then .error .minMaxValErr
    else .ok ()
  else if d.base = BASE_LAB ∨ d.base = BASE_STR then
    match value with
    | [] => .error .radixDigitErr
    | c :: _ => if isLetterCh c then .ok () else .error .radixDigitErr
  else .ok ()

/-- The `Expression` constructor: `_Validator.validate` strips the input,
computes the components and runs the descriptor validation on the word
(`self.value = components.pwords.word`); any failure raises. -/
def validateExpr (s : List Char) : Except Err Components := do
  let c ← getExprComponents (pstrip s)
  validateDesc c.descriptor c.pwords.word
  pure c

/-- `Expression.integer_value`: `int(word, base)` for a numeric base,
`-1` (the "uninitialized" sentinel the property then returns) otherwise. -/
def integerValue (c : Components) : Int :=
  if c.descriptor.base ∈ NUMERIC_BASES then
    (digitsToNat c.descriptor.base.toNat c.pwords.word : Int)
  else -1

/-- `_Elements.join`, which `Expression.cleaned_str` returns: the prefix,
word and suffix re-joined, or Python `None` when the elements are not
`is_valid()`. -/
def Elements.join (e : Elements) : Option (List Char) :=
  if e.pfx ≠ [] ∧ e.word ≠ [] then some (e.pfx ++ e.word ++ e.sfx) else none

/-- `Expression.cleaned_str`. -/
def cleanedStr (c : Components) : Option (List Char) :=
  c.pwords.join

/-! Basic lemmas about `pstrip`. -/

theorem dropWhile_head_false (p : Char → Bool) :
    ∀ (l : List Char) (c : Char) (t : List Char),
      l.dropWhile p = c :: t → p c = false := by
  intro l
  induction l with
  | nil => intro c t h; simp at h
  | cons a l' ih =>
    intro c t h
    rw [List.dropWhile_cons] at h
    by_cases hpa : p a
    · rw [if_pos hpa] at h; exact ih c t h
    · rw [if_neg hpa] at h
      cases h
      simpa using hpa

theorem dropWhile_dropWhile (p : Char → Bool) (l : List Char) :
    (l.dropWhile p).dropWhile p = l.dropWhile p := by
  cases h : l.dropWhile p with
  | nil => simp
  | cons c t =>
    have hc : p c = false := dropWhile_head_false p l c t h
    simp [List.dropWhile_cons, hc]

theorem dropWhile_eq_self_of_all (p : Char → Bool) (l : List Char)
    (h : ∀ c ∈ l, p c = false) : l.dropWhile p = l := by
  cases l with
  | nil => rfl
  | cons c t => simp [List.dropWhile_cons, h c (by simp)]

theorem pstrip_eq_self (l : List Char) (h : ∀ c ∈ l, isSpc c = false) :
    pstrip l = l := by
  unfold pstrip
  rw [dropWhile_eq_self_of_all _ _ h,
      dropWhile_eq_self_of_all _ _ (fun c hc => h c (by simpa using hc)),
      List.reverse_reverse]

theorem pstrip_idem (l : List Char) : pstrip (pstrip l) = pstrip l := by
  unfold pstrip
  set m := l.dropWhile isSpc with hm
  set r := m.reverse.dropWhile isSpc with hr
  obtain ⟨t, ht⟩ : r <:+ m.reverse := List.dropWhile_suffix isSpc
  have hmr : m = r.reverse ++ t.reverse := by
    have := congrArg List.reverse ht
    simpa [List.reverse_append] using this.symm
  have step1 : r.reverse.dropWhile isSpc = r.reverse := by
    cases hrr : r.reverse with
    | nil => simp
    | cons c t' =>
      have hmc : l.dropWhile isSpc = c :: (t' ++ t.reverse) := by
        rw [← hm]; simp [hmr, hrr]
      have hc : isSpc c = false := dropWhile_head_false isSpc l c _ hmc
      simp [hrr, List.dropWhile_cons, hc]
  have step2 : r.dropWhile isSpc = r := by
    rw [hr]; exact dropWhile_dropWhile isSpc m.reverse
  rw [step1, List.reverse_reverse, step2]

/-! Digit conversion lemmas. -/

theorem digitVal_digitChar : ∀ j < 16, digitVal (digitChar' j) = j := by
  decide

theorem digitsToNat_append (b : Nat) (l : List Char) (c : Char) :
    digitsToNat b (l ++ [c]) = digitsToNat b l * b + digitVal c := by
  unfold digitsToNat
  rw [List.foldl_append]
  rfl

theorem digitsToNat_natToDigits (b : Nat) (hb : 2 ≤ b) (hb16 : b ≤ 16) (v : Nat) :
    digitsToNat b (natToDigits b v) = v := by
  induction v using Nat.strong_induction_on with
  | _ v ih =>
    rw [natToDigits]
    split
    · omega
    · split
      · rename_i hv
        simp [digitsToNat, digitVal_digitChar v (by omega)]
      · rename_i hnb hv
        rw [digitsToNat_append]
        have hdiv : v / b < v := Nat.div_lt_self (by omega) (by omega)
        rw [ih (v / b) hdiv]
        rw [digitVal_digitChar (v % b) (by
          have := Nat.mod_lt v (show 0 < b by omega); omega)]
        rw [Nat.mul_comm]
        exact Nat.div_add_mod v b

theorem digitsToNat_replicate_zero (b m : Nat) (l : List Char) :
    digitsToNat b (List.replicate m (Char.ofNat 48) ++ l) = digitsToNat b l := by
  induction m with
  | zero => simp
  | succ k ihk =>
    have : List.replicate (k + 1) (Char.ofNat 48) ++ l
        = Char.ofNat 48 :: (List.replicate k (Char.ofNat 48) ++ l) := by
      simp [List.replicate_succ]
    rw [this]
    unfold digitsToNat at ihk ⊢
    simpa [digitVal] using ihk

theorem digitsToNat_padLeft (b w : Nat) (l : List Char) :
    digitsToNat b (padLeft w l) = digitsToNat b l :=
  digitsToNat_replicate_zero b _ l

theorem natToDigits_ne_nil (b : Nat) (hb : 2 ≤ b) (v : Nat) :
    natToDigits b v ≠ [] := by
  rw [natToDigits]
  split
  · omega
  · split <;> simp

theorem natToDigits_len_le (b : Nat) (hb : 2 ≤ b) (k : Nat) :
    ∀ v, v < b ^ k → 1 ≤ k → (natToDigits b v).length ≤ k := by
  induction k with
  | zero => omega
  | succ k ihk =>
    intro v hv _
    rw [natToDigits]
    split
    · simp
    · split
      · simp
      · rename_i hnb hvb
        have hk1 : 1 ≤ k := by
          by_contra hk
          have : k = 0 := by omega
          subst this
          simp at hv
          omega
        have hdb : v / b < b ^ k := by
          rw [Nat.div_lt_iff_lt_mul (by omega)]
          calc v < b ^ (k + 1) := hv
          _ = b ^ k * b := by ring
        have := ihk (v / b) hdb hk1
        simp only [List.length_append, List.length_cons, List.length_nil]
        omega

theorem padLeft_length (w : Nat) (l : List Char) :
    (padLeft w l).length = max w l.length := by
  unfold padLeft
  simp [List.length_replicate]
  omega

/-! Character-class facts about produced digit strings. -/

theorem digitChar_facts : ∀ j < 16,
    isHexCh (digitChar' j) = true ∧ isSpc (digitChar' j) = false ∧
    digitChar' j ≠ '$' ∧ digitChar' j ≠ 'x' := by
  decide

theorem digitChar_dec_facts : ∀ j < 10, isDigitCh (digitChar' j) = true := by
  decide

theorem digitChar_oct_facts : ∀ j < 8, isOctCh (digitChar' j) = true := by
  decide

theorem digitChar_bin_facts : ∀ j < 2, isBinCh (digitChar' j) = true := by
  decide

theorem mem_natToDigits (b : Nat) (hb : 2 ≤ b) :
    ∀ (v : Nat), ∀ c ∈ natToDigits b v, ∃ j, j < b ∧ c = digitChar' j := by
  intro v
  induction v using Nat.strong_induction_on with
  | _ v ih =>
    intro c hc
    rw [natToDigits] at hc
    split at hc
    · simp at hc
    · split at hc
      · rename_i hv
        simp at hc
        exact ⟨v, by omega, hc⟩
      · rename_i hnb hv
        rw [List.mem_append] at hc
        rcases hc with hc | hc
        · exact ih (v / b) (Nat.div_lt_self (by omega) (by omega)) c hc
        · simp at hc
          exact ⟨v % b, Nat.mod_lt v (by omega), hc⟩

theorem mem_padLeft (w : Nat) (l : List Char) (c : Char) (hc : c ∈ padLeft w l) :
    c = Char.ofNat 48 ∨ c ∈ l := by
  unfold padLeft at hc
  rw [List.mem_append] at hc
  rcases hc with hc | hc
  · exact Or.inl (List.eq_of_mem_replicate hc)
  · exact Or.inr hc

theorem zeroChar_facts :
    isHexCh (Char.ofNat 48) = true ∧ isDigitCh (Char.ofNat 48) = true ∧
    isOctCh (Char.ofNat 48) = true ∧ isBinCh (Char.ofNat 48) = true ∧
    isSpc (Char.ofNat 48) = false ∧ Char.ofNat 48 ≠ '$' ∧
    Char.ofNat 48 ≠ 'x' := by
  decide

/-- Every character of a (possibly padded) base-`b` digit string, any
`2 ≤ b ≤ 16`, is a hex digit, is not whitespace, and is neither `$` nor
`x`. -/
theorem padded_digits_facts (b k v : Nat) (hb : 2 ≤ b) (hb16 : b ≤ 16) :
    ∀ c ∈ padLeft k (natToDigits b v),
      isHexCh c = true ∧ isSpc c = false ∧ c ≠ '$' ∧ c ≠ 'x' := by
  intro c hc
  rcases mem_padLeft k _ c hc with h | h
  · subst h
    exact ⟨zeroChar_facts.1, zeroChar_facts.2.2.2.2.1,
      zeroChar_facts.2.2.2.2.2.1, zeroChar_facts.2.2.2.2.2.2⟩
  · obtain ⟨j, hj, rfl⟩ := mem_natToDigits b hb v c h
    exact digitChar_facts j (by omega)

/-! Facts about `findPfx` on re-built expression strings. -/

theorem isPrefixOf_singleton_false (c : Char) (w : List Char)
    (h : ∀ x ∈ w, x ≠ c) : ([c] : List Char).isPrefixOf w = false := by
  cases w with
  | nil => rfl
  | cons a t =>
    simp only [List.isPrefixOf, List.isPrefixOf_nil_left, Bool.and_true,
      beq_eq_false_iff_ne, ne_eq]
    exact fun hc => absurd hc.symm (h a (by simp))

theorem findPfx_dollar (w : List Char) (h : ∀ x ∈ w, x ≠ '$') :
    findPfx ('$' :: w) = some ['$'] := by
  unfold findPfx pfxList
  rw [List.find?]
  have h1 : (['0', 'x'] : List Char).isPrefixOf ('$' :: w) = false := by
    simp [List.isPrefixOf]
  rw [h1]
  rw [List.find?]
  have h2 : (['0'] : List Char).isPrefixOf ('$' :: w) = false := by
    simp [List.isPrefixOf]
  rw [h2]
  rw [List.find?]
  have h3 : (['$', '$'] : List Char).isPrefixOf ('$' :: w) = false := by
    simp only [List.isPrefixOf, Bool.and_eq_false_iff]
    exact Or.inr (isPrefixOf_singleton_false '$' w h)
  rw [h3]
  rw [List.find?]
  have h4 : (['$'] : List Char).isPrefixOf ('$' :: w) = true := by
    simp [List.isPrefixOf]
  rw [h4]

theorem findPfx_dollar2 (w : List Char) :
    findPfx ('$' :: '$' :: w) = some ['$', '$'] := by
  unfold findPfx pfxList
  rw [List.find?]
  have h1 : (['0', 'x'] : List Char).isPrefixOf ('$' :: '$' :: w) = false := by
    simp [List.isPrefixOf]
  rw [h1]
  rw [List.find?]
  have h2 : (['0'] : List Char).isPrefixOf ('$' :: '$' :: w) = false := by
    simp [List.isPrefixOf]
  rw [h2]
  rw [List.find?]
  have h3 : (['$', '$'] : List Char).isPrefixOf ('$' :: '$' :: w) = true := by
    simp [List.isPrefixOf]
  rw [h3]

theorem findPfx_0x (w : List Char) :
    findPfx ('0' :: 'x' :: w) = some ['0', 'x'] := by
  unfold findPfx pfxList
  rw [List.find?]
  have h1 : (['0', 'x'] : List Char).isPrefixOf ('0' :: 'x' :: w) = true := by
    simp [List.isPrefixOf]
  rw [h1]

theorem findPfx_0 (w : List Char) (h : ∀ x ∈ w, x ≠ 'x') :
    findPfx ('0' :: w) = some ['0'] := by
  unfold findPfx pfxList
  rw [List.find?]
  have h1 : (['0', 'x'] : List Char).isPrefixOf ('0' :: w) = false := by
    simp only [List.isPrefixOf, Bool.and_eq_false_iff]
    exact Or.inr (isPrefixOf_singleton_false 'x' w h)
  rw [h1]
  rw [List.find?]
  have h2 : (['0'] : List Char).isPrefixOf ('0' :: w) = true := by
    simp [List.isPrefixOf]
  rw [h2]

theorem findPfx_amp (w : List Char) : findPfx ('&' :: w) = some ['&'] := by
  unfold findPfx pfxList
  rw [List.find?]
  have h1 : (['0', 'x'] : List Char).isPrefixOf ('&' :: w) = false := by
    simp [List.isPrefixOf]
  rw [h1]
  rw [List.find?]
  have h2 : (['0'] : List Char).isPrefixOf ('&' :: w) = false := by
    simp [List.isPrefixOf]
  rw [h2]
  rw [List.find?]
  have h3 : (['$', '$'] : List Char).isPrefixOf ('&' :: w) = false := by
    simp [List.isPrefixOf]
  rw [h3]
  rw [List.find?]
  have h4 : (['$'] : List Char).isPrefixOf ('&' :: w) = false := by
    simp [List.isPrefixOf]
  rw [h4]
  rw [List.find?]
  have h5 : (['&'] : List Char).isPrefixOf ('&' :: w) = true := by
    simp [List.isPrefixOf]
  rw [h5]

theorem findPfx_pct (w : List Char) : findPfx ('%' :: w) = some ['%'] := by
  unfold findPfx pfxList
  rw [List.find?]
  have h1 : (['0', 'x'] : List Char).isPrefixOf ('%' :: w) = false := by
    simp [List.isPrefixOf]
  rw [h1]
  rw [List.find?]
  have h2 : (['0'] : List Char).isPrefixOf ('%' :: w) = false := by
    simp [List.isPrefixOf]
  rw [h2]
  rw [List.find?]
  have h3 : (['$', '$'] : List Char).isPrefixOf ('%' :: w) = false := by
    simp [List.isPrefixOf]
  rw [h3]
  rw [List.find?]
  have h4 : (['$'] : List Char).isPrefixOf ('%' :: w) = false := by
    simp [List.isPrefixOf]
  rw [h4]
  rw [List.find?]
  have h5 : (['&'] : List Char).isPrefixOf ('%' :: w) = false := by
    simp [List.isPrefixOf]
  rw [h5]
  rw [List.find?]
  have h6 : (['%'] : List Char).isPrefixOf ('%' :: w) = true := by
    simp [List.isPrefixOf]
  rw [h6]

/-! The master construction lemma: parsing `p ++ w` for a non-quote prefix
`p` and a digit word `w`. -/

theorem removeSfx_nil (x : List Char) : removeSfx x [] = x := by
  simp [removeSfx]

theorem pfxList_nonspace : ∀ p ∈ pfxList, ∀ c ∈ p, isSpc c = false := by
  decide

theorem validateExpr_build_gen (p w : List Char) (d : BaseDescriptor) (ty : EType)
    (f : List Char)
    (hnq : ¬(p = [quoteS] ∨ p = [quoteD]))
    (hwns : ∀ c ∈ w, isSpc c = false)
    (hfind : findPfx (p ++ w) = some p)
    (hsel : selectComponents p w [] = .ok ⟨d, ty, ⟨p, w, []⟩, f⟩)
    (hlen : 3 ≤ p.length + w.length) :
    validateExpr (p ++ w) = (do
      let _ ← validateDesc d w
      pure ⟨d, ty, ⟨p, w, []⟩, f⟩) := by
  have hpmem : p ∈ pfxList := by
    have := List.mem_of_find?_eq_some hfind
    exact this
  have hstrip : pstrip (p ++ w) = p ++ w := by
    apply pstrip_eq_self
    intro c hc
    rcases List.mem_append.mp hc with h | h
    · exact pfxList_nonspace p hpmem c h
    · exact hwns c h
  have hcore : coreComponents (p ++ w) = .ok ⟨d, ty, ⟨p, w, []⟩, f⟩ := by
    unfold coreComponents
    rw [if_neg (by simp only [List.length_append]; omega)]
    have hge : getElements (p ++ w) = ⟨some p, some w, some []⟩ := by
      unfold getElements
      rw [hfind]
      dsimp only
      rw [if_neg hnq]
      rw [removeSfx_nil, List.drop_left]
    rw [hge]
    exact hsel
  show (do
    let c ← getExprComponents (pstrip (p ++ w))
    validateDesc c.descriptor c.pwords.word
    pure c) = _
  rw [hstrip]
  unfold getExprComponents
  rw [hstrip, hcore]
  rfl

theorem validateExpr_build (p w : List Char) (d : BaseDescriptor) (ty : EType)
    (f : List Char)
    (hnq : ¬(p = [quoteS] ∨ p = [quoteD]))
    (hwns : ∀ c ∈ w, isSpc c = false)
    (hfind : findPfx (p ++ w) = some p)
    (hsel : selectComponents p w [] = .ok ⟨d, ty, ⟨p, w, []⟩, f⟩)
    (hlen : 3 ≤ p.length + w.length)
    (hvd : validateDesc d w = .ok ()) :
    validateExpr (p ++ w) = .ok ⟨d, ty, ⟨p, w, []⟩, f⟩ := by
  rw [validateExpr_build_gen p w d ty f hnq hwns hfind hsel hlen, hvd]
  rfl

theorem validateExpr_build_err (p w : List Char) (d : BaseDescriptor) (ty : EType)
    (f : List Char) (e : Err)
    (hnq : ¬(p = [quoteS] ∨ p = [quoteD]))
    (hwns : ∀ c ∈ w, isSpc c = false)
    (hfind : findPfx (p ++ w) = some p)
    (hsel : selectComponents p w [] = .ok ⟨d, ty, ⟨p, w, []⟩, f⟩)
    (hlen : 3 ≤ p.length + w.length)
    (hvd : validateDesc d w = .error e) :
    validateExpr (p ++ w) = .error e := by
  rw [validateExpr_build_gen p w d ty f hnq hwns hfind hsel hlen, hvd]
  rfl

theorem validateDesc_numeric_ok (d : BaseDescriptor) (wrd : List Char)
    (hnum : d.base ∈ NUMERIC_BASES)
    (hall : wrd.all (charsetOf d.base) = true)
    (hlen : d.chars.min ≤ wrd.length ∧ wrd.length < d.chars.max)
    (hval : d.limits.min ≤ digitsToNat d.base.toNat wrd ∧
            digitsToNat d.base.toNat wrd < d.limits.max) :
    validateDesc d wrd = .ok () := by
  unfold validateDesc
  rw [if_neg (by simp [hall]), if_neg (not_not_intro hlen), if_pos hnum,
      if_neg (not_not_intro hval)]

theorem validateDesc_len_err (d : BaseDescriptor) (wrd : List Char)
    (hall : wrd.all (charsetOf d.base) = true)
    (hlen : ¬(d.chars.min ≤ wrd.length ∧ wrd.length < d.chars.max)) :
    validateDesc d wrd = .error .minMaxLenErr := by
  unfold validateDesc
  rw [if_neg (by simp [hall]), if_pos hlen]

theorem integerValue_mk (d : BaseDescriptor) (ty : EType) (pw : Elements)
    (f : List Char) (h : d.base ∈ NUMERIC_BASES) :
    integerValue ⟨d, ty, pw, f⟩ = digitsToNat d.base.toNat pw.word := by
  simp [integerValue, h]

theorem natToDigits_len_ge2 (b v : Nat) (hb : 2 ≤ b) (hv : b ≤ v) :
    2 ≤ (natToDigits b v).length := by
  rw [natToDigits]
  rw [dif_neg (by omega), if_neg (by omega)]
  have := natToDigits_ne_nil b hb (v / b)
  have : 1 ≤ (natToDigits b (v / b)).length := List.length_pos.mpr this
  simp only [List.length_append, List.length_cons, List.length_nil]
  omega

theorem padded_dec_all (k v : Nat) :
    ∀ c ∈ padLeft k (natToDigits 10 v), isDigitCh c = true := by
  intro c hc
  rcases mem_padLeft k _ c hc with h | h
  · subst h; exact zeroChar_facts.2.1
  · obtain ⟨j, hj, rfl⟩ := mem_natToDigits 10 (by omega) v c h
    exact digitChar_dec_facts j hj

theorem padded_oct_all (k v : Nat) :
    ∀ c ∈ padLeft k (natToDigits 8 v), isOctCh c = true := by
  intro c hc
  rcases mem_padLeft k _ c hc with h | h
  · subst h; exact zeroChar_facts.2.2.1
  · obtain ⟨j, hj, rfl⟩ := mem_natToDigits 8 (by omega) v c h
    exact digitChar_oct_facts j hj

theorem padded_bin_all (k v : Nat) :
    ∀ c ∈ padLeft k (natToDigits 2 v), isBinCh c = true := by
  intro c hc
  rcases mem_padLeft k _ c hc with h | h
  · subst h; exact zeroChar_facts.2.2.2.1
  · obtain ⟨j, hj, rfl⟩ := mem_natToDigits 2 (by omega) v c h
    exact digitChar_bin_facts j hj

theorem padded_hex_all (k v : Nat) :
    ∀ c ∈ padLeft k (natToDigits 16 v), isHexCh c = true := by
  intro c hc
  exact (padded_digits_facts 16 k v (by omega) (by omega) c hc).1

/-! Parse lemmas for each rebuilt numeric literal form. -/

theorem parse_hex8_dollar (v : Nat) (hv : v < 256) :
    validateExpr ('$' :: padLeft 2 (natToDigits 16 v)) =
      .ok ⟨HEX_DSC, .hexidecimal, ⟨['$'], padLeft 2 (natToDigits 16 v), []⟩, fmtX02⟩ ∧
    integerValue ⟨HEX_DSC, .hexidecimal, ⟨['$'], padLeft 2 (natToDigits 16 v), []⟩, fmtX02⟩
      = (v : Int) := by
  set w := padLeft 2 (natToDigits 16 v) with hw
  have hfacts := padded_digits_facts 16 2 v (by omega) (by omega)
  have hd1 : (natToDigits 16 v).length ≤ 2 :=
    natToDigits_len_le 16 (by omega) 2 v (by omega) (by omega)
  have hd2 : natToDigits 16 v ≠ [] := natToDigits_ne_nil 16 (by omega) v
  have hd3 : 1 ≤ (natToDigits 16 v).length := List.length_pos.mpr hd2
  have hwlen : w.length = 2 := by rw [hw, padLeft_length]; omega
  have hval : digitsToNat 16 w = v := by
    rw [hw, digitsToNat_padLeft, digitsToNat_natToDigits 16 (by omega) (by omega)]
  refine ⟨?_, ?_⟩
  · have hb := validateExpr_build ['$'] w HEX_DSC .hexidecimal fmtX02
      (by decide)
      (fun c hc => (hfacts c hc).2.1)
      (findPfx_dollar w (fun c hc => (hfacts c hc).2.2.1))
      (by
        unfold selectComponents
        rw [if_pos (Or.inl rfl)]
        simp [hwlen])
      (by simp [hwlen])
      (validateDesc_numeric_ok HEX_DSC w (by decide)
        (by
          rw [List.all_eq_true]
          intro c hc
          show charsetOf 16 c = true
          simpa [charsetOf] using (hfacts c hc).1)
        (by constructor <;> simp [HEX_DSC, hwlen])
        (by
          refine ⟨by simp [HEX_DSC], ?_⟩
          show digitsToNat 16 w < _
          rw [hval]
          simp [HEX_DSC, MAX_8BIT_VALUE]
          omega))
    exact hb
  · rw [integerValue_mk _ _ _ _ (by decide)]
    show (digitsToNat 16 w : Int) = v
    rw [hval]

theorem isDigitCh_props (c : Char) (h : isDigitCh c = true) :
    isSpc c = false ∧ c ≠ 'x' ∧ c ≠ '$' := by
  unfold isDigitCh at h
  simp only [Bool.and_eq_true, decide_eq_true_eq] at h
  refine ⟨?_, ?_, ?_⟩
  · unfold isSpc
    simp only [Bool.or_eq_false_iff, Bool.and_eq_false_iff, decide_eq_false_iff_not]
    omega
  · intro hc; subst hc; revert h; decide
  · intro hc; subst hc; revert h; decide

theorem isBinCh_digit (c : Char) (h : isBinCh c = true) : isDigitCh c = true := by
  unfold isBinCh at h
  unfold isDigitCh
  simp only [Bool.or_eq_true, decide_eq_true_eq] at h
  simp only [Bool.and_eq_true, decide_eq_true_eq]
  omega

theorem isOctCh_digit (c : Char) (h : isOctCh c = true) : isDigitCh c = true := by
  unfold isOctCh at h
  unfold isDigitCh
  simp only [Bool.and_eq_true, decide_eq_true_eq] at h ⊢
  omega

theorem parse_hex8_0x (v : Nat) (hv : v < 256) :
    validateExpr ('0' :: 'x' :: padLeft 2 (natToDigits 16 v)) =
      .ok ⟨HEX_DSC, .hexidecimal, ⟨['0', 'x'], padLeft 2 (natToDigits 16 v), []⟩, fmtX02⟩ ∧
    integerValue ⟨HEX_DSC, .hexidecimal, ⟨['0', 'x'], padLeft 2 (natToDigits 16 v), []⟩, fmtX02⟩
      = (v : Int) := by
  set w := padLeft 2 (natToDigits 16 v) with hw
  have hfacts := padded_digits_facts 16 2 v (by omega) (by omega)
  have hd1 : (natToDigits 16 v).length ≤ 2 :=
    natToDigits_len_le 16 (by omega) 2 v (by omega) (by omega)
  have hd3 : 1 ≤ (natToDigits 16 v).length :=
    List.length_pos.mpr (natToDigits_ne_nil 16 (by omega) v)
  have hwlen : w.length = 2 := by rw [hw, padLeft_length]; omega
  have hval : digitsToNat 16 w = v := by
    rw [hw, digitsToNat_padLeft, digitsToNat_natToDigits 16 (by omega) (by omega)]
  refine ⟨?_, ?_⟩
  · exact validateExpr_build ['0', 'x'] w HEX_DSC .hexidecimal fmtX02
      (by decide)
      (fun c hc => (hfacts c hc).2.1)
      (findPfx_0x w)
      (by
        unfold selectComponents
        rw [if_pos (Or.inr rfl)]
        simp [hwlen])
      (by simp [hwlen])
      (validateDesc_numeric_ok HEX_DSC w (by decide)
        (by
          rw [List.all_eq_true]
          intro c hc
          show charsetOf 16 c = true
          simpa [charsetOf] using (hfacts c hc).1)
        (by constructor <;> simp [HEX_DSC, hwlen])
        (by
          refine ⟨by simp [HEX_DSC], ?_⟩
          show digitsToNat 16 w < _
          rw [hval]
          simp [HEX_DSC, MAX_8BIT_VALUE]
          omega))
  · rw [integerValue_mk _ _ _ _ (by decide)]
    show (digitsToNat 16 w : Int) = v
    rw [hval]

theorem parse_hex16_dollar (v : Nat) (hv : v < 65536) :
    validateExpr ('$' :: padLeft 4 (natToDigits 16 v)) =
      .ok ⟨HEX16_DSC, .hexidecimal, ⟨['$'], padLeft 4 (natToDigits 16 v), []⟩, fmtX04⟩ ∧
    integerValue ⟨HEX16_DSC, .hexidecimal, ⟨['$'], padLeft 4 (natToDigits 16 v), []⟩, fmtX04⟩
      = (v : Int) := by
  set w := padLeft 4 (natToDigits 16 v) with hw
  have hfacts := padded_digits_facts 16 4 v (by omega) (by omega)
  have hd1 : (natToDigits 16 v).length ≤ 4 :=
    natToDigits_len_le 16 (by omega) 4 v (by norm_num; omega) (by omega)
  have hd3 : 1 ≤ (natToDigits 16 v).length :=
    List.length_pos.mpr (natToDigits_ne_nil 16 (by omega) v)
  have hwlen : w.length = 4 := by rw [hw, padLeft_length]; omega
  have hval : digitsToNat 16 w = v := by
    rw [hw, digitsToNat_padLeft, digitsToNat_natToDigits 16 (by omega) (by omega)]
  refine ⟨?_, ?_⟩
  · exact validateExpr_build ['$'] w HEX16_DSC .hexidecimal fmtX04
      (by decide)
      (fun c hc => (hfacts c hc).2.1)
      (findPfx_dollar w (fun c hc => (hfacts c hc).2.2.1))
      (by
        unfold selectComponents
        rw [if_pos (Or.inl rfl)]
        simp [hwlen])
      (by simp [hwlen])
      (validateDesc_numeric_ok HEX16_DSC w (by decide)
        (by
          rw [List.all_eq_true]
          intro c hc
          show charsetOf 16 c = true
          simpa [charsetOf] using (hfacts c hc).1)
        (by constructor <;> simp [HEX16_DSC, hwlen])
        (by
          refine ⟨by simp [HEX16_DSC], ?_⟩
          show digitsToNat 16 w < _
          rw [hval]
          simp [HEX16_DSC, MAX_16BIT_VALUE]
          omega))
  · rw [integerValue_mk _ _ _ _ (by decide)]
    show (digitsToNat 16 w : Int) = v
    rw [hval]

theorem parse_hex16_0x (v : Nat) (hv : v < 65536) :
    validateExpr ('0' :: 'x' :: padLeft 4 (natToDigits 16 v)) =
      .ok ⟨HEX16_DSC, .hexidecimal, ⟨['0', 'x'], padLeft 4 (natToDigits 16 v), []⟩, fmtX04⟩ ∧
    integerValue ⟨HEX16_DSC, .hexidecimal, ⟨['0', 'x'], padLeft 4 (natToDigits 16 v), []⟩, fmtX04⟩
      = (v : Int) := by
  set w := padLeft 4 (natToDigits 16 v) with hw
  have hfacts := padded_digits_facts 16 4 v (by omega) (by omega)
  have hd1 : (natToDigits 16 v).length ≤ 4 :=
    natToDigits_len_le 16 (by omega) 4 v (by norm_num; omega) (by omega)
  have hd3 : 1 ≤ (natToDigits 16 v).length :=
    List.length_pos.mpr (natToDigits_ne_nil 16 (by omega) v)
  have hwlen : w.length = 4 := by rw [hw, padLeft_length]; omega
  have hval : digitsToNat 16 w = v := by
    rw [hw, digitsToNat_padLeft, digitsToNat_natToDigits 16 (by omega) (by omega)]
  refine ⟨?_, ?_⟩
  · exact validateExpr_build ['0', 'x'] w HEX16_DSC .hexidecimal fmtX04
      (by decide)
      (fun c hc => (hfacts c hc).2.1)
      (findPfx_0x w)
      (by
        unfold selectComponents
        rw [if_pos (Or.inr rfl)]
        simp [hwlen])
      (by simp [hwlen])
      (validateDesc_numeric_ok HEX16_DSC w (by decide)
        (by
          rw [List.all_eq_true]
          intro c hc
          show charsetOf 16 c = true
          simpa [charsetOf] using (hfacts c hc).1)
        (by constructor <;> simp [HEX16_DSC, hwlen])
        (by
          refine ⟨by simp [HEX16_DSC], ?_⟩
          show digitsToNat 16 w < _
          rw [hval]
          simp [HEX16_DSC, MAX_16BIT_VALUE]
          omega))
  · rw [integerValue_mk _ _ _ _ (by decide)]
    show (digitsToNat 16 w : Int) = v
    rw [hval]

theorem parse_hex16_dollar2 (v : Nat) (hv : v < 65536) :
    validateExpr ('$' :: '$' :: padLeft 4 (natToDigits 16 v)) =
      .ok ⟨HEX16_DSC, .hexidecimal, ⟨['$', '$'], padLeft 4 (natToDigits 16 v), []⟩, fmtX04⟩ ∧
    integerValue ⟨HEX16_DSC, .hexidecimal, ⟨['$', '$'], padLeft 4 (natToDigits 16 v), []⟩, fmtX04⟩
      = (v : Int) := by
  set w := padLeft 4 (natToDigits 16 v) with hw
  have hfacts := padded_digits_facts 16 4 v (by omega) (by omega)
  have hd1 : (natToDigits 16 v).length ≤ 4 :=
    natToDigits_len_le 16 (by omega) 4 v (by norm_num; omega) (by omega)
  have hd3 : 1 ≤ (natToDigits 16 v).length :=
    List.length_pos.mpr (natToDigits_ne_nil 16 (by omega) v)
  have hwlen : w.length = 4 := by rw [hw, padLeft_length]; omega
  have hval : digitsToNat 16 w = v := by
    rw [hw, digitsToNat_padLeft, digitsToNat_natToDigits 16 (by omega) (by omega)]
  refine ⟨?_, ?_⟩
  · exact validateExpr_build ['$', '$'] w HEX16_DSC .hexidecimal fmtX04
      (by decide)
      (fun c hc => (hfacts c hc).2.1)
      (findPfx_dollar2 w)
      (by
        unfold selectComponents
        rw [if_neg (by decide), if_pos rfl])
      (by simp [hwlen])
      (validateDesc_numeric_ok HEX16_DSC w (by decide)
        (by
          rw [List.all_eq_true]
          intro c hc
          show charsetOf 16 c = true
          simpa [charsetOf] using (hfacts c hc).1)
        (by constructor <;> simp [HEX16_DSC, hwlen])
        (by
          refine ⟨by simp [HEX16_DSC], ?_⟩
          show digitsToNat 16 w < _
          rw [hval]
          simp [HEX16_DSC, MAX_16BIT_VALUE]
          omega))
  · rw [integerValue_mk _ _ _ _ (by decide)]
    show (digitsToNat 16 w : Int) = v
    rw [hval]

theorem parse_dec (k v : Nat) (hk : k ≤ 5) (hv : v < 65536)
    (hor : 2 ≤ k ∨ 10 ≤ v) :
    validateExpr ('0' :: padLeft k (natToDigits 10 v)) =
      .ok ⟨DEC_DSC, .decimal, ⟨['0'], padLeft k (natToDigits 10 v), []⟩, fmtD02⟩ ∧
    integerValue ⟨DEC_DSC, .decimal, ⟨['0'], padLeft k (natToDigits 10 v), []⟩, fmtD02⟩
      = (v : Int) := by
  set w := padLeft k (natToDigits 10 v) with hw
  have hdig := padded_dec_all k v
  have hd1 : (natToDigits 10 v).length ≤ 5 :=
    natToDigits_len_le 10 (by omega) 5 v (by norm_num; omega) (by omega)
  have hd3 : 1 ≤ (natToDigits 10 v).length :=
    List.length_pos.mpr (natToDigits_ne_nil 10 (by omega) v)
  have hd4 : 2 ≤ k ∨ 2 ≤ (natToDigits 10 v).length := by
    rcases hor with h | h
    · exact Or.inl h
    · exact Or.inr (natToDigits_len_ge2 10 v (by omega) h)
  have hwlen : w.length = max k (natToDigits 10 v).length := by
    rw [hw, padLeft_length]
  have hwlen1 : 2 ≤ w.length := by omega
  have hwlen2 : w.length ≤ 5 := by omega
  have hval : digitsToNat 10 w = v := by
    rw [hw, digitsToNat_padLeft, digitsToNat_natToDigits 10 (by omega) (by omega)]
  refine ⟨?_, ?_⟩
  · exact validateExpr_build ['0'] w DEC_DSC .decimal fmtD02
      (by decide)
      (fun c hc => (isDigitCh_props c (hdig c hc)).1)
      (findPfx_0 w (fun c hc => (isDigitCh_props c (hdig c hc)).2.1))
      (by
        unfold selectComponents
        rw [if_neg (by decide), if_neg (by decide), if_pos rfl])
      (by simp; omega)
      (validateDesc_numeric_ok DEC_DSC w (by decide)
        (by
          rw [List.all_eq_true]
          intro c hc
          show charsetOf 10 c = true
          simpa [charsetOf] using hdig c hc)
        (by constructor <;> simp [DEC_DSC] <;> omega)
        (by
          refine ⟨by simp [DEC_DSC], ?_⟩
          show digitsToNat 10 w < _
          rw [hval]
          simp [DEC_DSC, MAX_16BIT_VALUE]
          omega))
  · rw [integerValue_mk _ _ _ _ (by decide)]
    show (digitsToNat 10 w : Int) = v
    rw [hval]

theorem parse_bin (v : Nat) (hv : v < 256) :
    validateExpr ('%' :: padLeft 8 (natToDigits 2 v)) =
      .ok ⟨BIN_DSC, .binary, ⟨['%'], padLeft 8 (natToDigits 2 v), []⟩, fmtB08⟩ ∧
    integerValue ⟨BIN_DSC, .binary, ⟨['%'], padLeft 8 (natToDigits 2 v), []⟩, fmtB08⟩
      = (v : Int) := by
  set w := padLeft 8 (natToDigits 2 v) with hw
  have hdig := padded_bin_all 8 v
  have hd1 : (natToDigits 2 v).length ≤ 8 :=
    natToDigits_len_le 2 (by omega) 8 v (by norm_num; omega) (by omega)
  have hd3 : 1 ≤ (natToDigits 2 v).length :=
    List.length_pos.mpr (natToDigits_ne_nil 2 (by omega) v)
  have hwlen : w.length = 8 := by rw [hw, padLeft_length]; omega
  have hval : digitsToNat 2 w = v := by
    rw [hw, digitsToNat_padLeft, digitsToNat_natToDigits 2 (by omega) (by omega)]
  refine ⟨?_, ?_⟩
  · exact validateExpr_build ['%'] w BIN_DSC .binary fmtB08
      (by decide)
      (fun c hc => (isDigitCh_props c (isBinCh_digit c (hdig c hc))).1)
      (findPfx_pct w)
      (by
        unfold selectComponents
        rw [if_neg (by decide), if_neg (by decide), if_neg (by decide),
            if_neg (by decide), if_pos rfl])
      (by simp [hwlen])
      (validateDesc_numeric_ok BIN_DSC w (by decide)
        (by
          rw [List.all_eq_true]
          intro c hc
          show charsetOf 2 c = true
          simpa [charsetOf] using hdig c hc)
        (by constructor <;> simp [BIN_DSC, hwlen])
        (by
          refine ⟨by simp [BIN_DSC], ?_⟩
          show digitsToNat 2 w < _
          rw [hval]
          simp [BIN_DSC, MAX_8BIT_VALUE]
          omega))
  · rw [integerValue_mk _ _ _ _ (by decide)]
    show (digitsToNat 2 w : Int) = v
    rw [hval]

theorem parse_oct_err (v : Nat) (hv : v < 65536) :
    validateExpr ('&' :: padLeft 8 (natToDigits 8 v)) = .error .minMaxLenErr := by
  set w := padLeft 8 (natToDigits 8 v) with hw
  have hdig := padded_oct_all 8 v
  have hd1 : (natToDigits 8 v).length ≤ 8 :=
    natToDigits_len_le 8 (by omega) 8 v (by norm_num; omega) (by omega)
  have hd3 : 1 ≤ (natToDigits 8 v).length :=
    List.length_pos.mpr (natToDigits_ne_nil 8 (by omega) v)
  have hwlen : w.length = 8 := by rw [hw, padLeft_length]; omega
  exact validateExpr_build_err ['&'] w OCT_DSC .octal fmtO08 .minMaxLenErr
    (by decide)
    (fun c hc => (isDigitCh_props c (isOctCh_digit c (hdig c hc))).1)
    (findPfx_amp w)
    (by
      unfold selectComponents
      rw [if_neg (by decide), if_neg (by decide), if_neg (by decide),
          if_neg (by decide), if_neg (by decide), if_pos rfl])
    (by simp [hwlen])
    (validateDesc_len_err OCT_DSC w
      (by
        rw [List.all_eq_true]
        intro c hc
        show charsetOf 8 c = true
        simpa [charsetOf] using hdig c hc)
      (by simp [OCT_DSC, hwlen]))

/-! Structural facts about successful parses, used for the round-trip and
operator claims. -/

theorem selectComponents_ok (p w sfx : List Char) (c : Components)
    (h : selectComponents p w sfx = .ok c) :
    c.pwords = ⟨p, w, sfx⟩ ∧
    c.descriptor ∈ [HEX_DSC, HEX16_DSC, DEC_DSC, STR_DSC, BIN_DSC, OCT_DSC] := by
  unfold selectComponents at h
  split_ifs at h <;> cases h <;> simp

theorem validateDesc_ok_len (d : BaseDescriptor) (w : List Char)
    (h : validateDesc d w = .ok ()) :
    d.chars.min ≤ w.length ∧ w.length < d.chars.max := by
  unfold validateDesc at h
  by_cases h1 : ¬(w.all (charsetOf d.base) = true)
  · rw [if_pos h1] at h; exact absurd h (by simp)
  · rw [if_neg h1] at h
    by_cases h2 : ¬(d.chars.min ≤ w.length ∧ w.length < d.chars.max)
    · rw [if_pos h2] at h; exact absurd h (by simp)
    · exact not_not.mp h2

theorem pfxList_ne_nil : ∀ p ∈ pfxList, p ≠ [] := by decide

theorem coreComponents_ok (t : List Char) (c : Components)
    (h : coreComponents t = .ok c) :
    c.pwords.pfx ++ c.pwords.word ++ c.pwords.sfx = t ∧
    c.pwords.pfx ≠ [] ∧
    c.descriptor ∈ [HEX_DSC, HEX16_DSC, DEC_DSC, STR_DSC, BIN_DSC, OCT_DSC] := by
  unfold coreComponents at h
  by_cases hlen3 : t.length < 3
  · rw [if_pos hlen3] at h; exact absurd h (by simp)
  rw [if_neg hlen3] at h
  rcases hge : getElements t with ⟨pfxO, wordO, sfxO⟩
  rw [hge] at h
  cases pfxO with
  | none => exact absurd h (by simp)
  | some p =>
    cases sfxO with
    | none => exact absurd h (by simp)
    | some sfx =>
      cases wordO with
      | none => exact absurd h (by simp)
      | some w =>
        have hfp : (getElements t).pfx = some p := by rw [hge]
        have hsf : (getElements t).sfx = some sfx := by rw [hge]
        have hwd : (getElements t).word = some w := by rw [hge]
        obtain ⟨hpw, hdmem⟩ := selectComponents_ok p w sfx c h
        -- Reconstruct what getElements produced.
        have hfind : findPfx t = some p := by
          have hfp' := hfp
          unfold getElements at hfp'
          cases hf : findPfx t with
          | none => rw [hf] at hfp'; simp at hfp'
          | some p' =>
            rw [hf] at hfp'
            dsimp only at hfp'
            split_ifs at hfp' <;> simp_all
        have hpfx : p.isPrefixOf t = true := by
          have h' : pfxList.find? (fun q => q.isPrefixOf t) = some p := hfind
          have h2 := List.find?_some h'
          simpa using h2
        obtain ⟨r, hr⟩ : p <+: t := List.isPrefixOf_iff_prefix.mp hpfx
        have hpmem : p ∈ pfxList := List.mem_of_find?_eq_some hfind
        have hdrop : t.drop p.length = r := by
          rw [← hr, List.drop_left]
        by_cases hq : p = [quoteS] ∨ p = [quoteD]
        · -- quote prefix: suffix is the quote and the word is the middle
          obtain ⟨q, hpq⟩ : ∃ q, p = [q] := by
            rcases hq with h' | h' <;> exact ⟨_, h'⟩
          have hsuf : p.isSuffixOf t = true := by
            have hsf' := hsf
            unfold getElements at hsf'
            rw [hfind] at hsf'
            dsimp only at hsf'
            rw [if_pos hq] at hsf'
            split_ifs at hsf' with hsfx
            exact hsfx
          have hw_eq : w = removeSfx (t.drop p.length) p := by
            have hwd' := hwd
            unfold getElements at hwd'
            rw [hfind] at hwd'
            dsimp only at hwd'
            rw [if_pos hq, if_pos hsuf] at hwd'
            simp at hwd'
            exact hwd'.symm
          have hsfx_eq : sfx = p := by
            have hsf' := hsf
            unfold getElements at hsf'
            rw [hfind] at hsf'
            dsimp only at hsf'
            rw [if_pos hq, if_pos hsuf] at hsf'
            simp at hsf'
            exact hsf'.symm
          -- t ends with q, and the remainder r is nonempty
          have hrne : r ≠ [] := by
            intro hrnil
            rw [hrnil, List.append_nil] at hr
            rw [← hr, hpq] at hlen3
            simp at hlen3
          obtain ⟨s', hs'⟩ : ∃ s', r = s' ++ [q] := by
            obtain ⟨u, hu⟩ : p <:+ t := List.isSuffixOf_iff_suffix.mp hsuf
            rw [← hr, hpq] at hu
            -- hu : u ++ [q] = [q] ++ r
            cases u with
            | nil =>
              exfalso
              simp at hu
              exact hrne hu
            | cons a u' =>
              refine ⟨u', ?_⟩
              have := hu
              simp at this
              exact this.2.symm
          have hwval : w = s' := by
            rw [hw_eq, hdrop, hs', hpq]
            unfold removeSfx
            rw [if_pos ⟨by simp, List.isSuffixOf_iff_suffix.mpr ⟨s', rfl⟩⟩]
            simp
          refine ⟨?_, ?_, hdmem⟩
          · rw [hpw]
            show p ++ w ++ sfx = t
            rw [hsfx_eq, hwval, ← hr, hs', hpq]
            simp
          · rw [hpw]
            exact pfxList_ne_nil p hpmem
        · -- non-quote prefix: suffix is empty and the word is the tail
          have hw_eq : w = t.drop p.length := by
            have hwd' := hwd
            unfold getElements at hwd'
            rw [hfind] at hwd'
            dsimp only at hwd'
            rw [if_neg hq] at hwd'
            simp [removeSfx_nil] at hwd'
            exact hwd'.symm
          have hsfx_eq : sfx = [] := by
            have hsf' := hsf
            unfold getElements at hsf'
            rw [hfind] at hsf'
            dsimp only at hsf'
            rw [if_neg hq] at hsf'
            simp at hsf'
            exact hsf'
          refine ⟨?_, ?_, hdmem⟩
          · rw [hpw]
            show p ++ w ++ sfx = t
            rw [hsfx_eq, hw_eq, hdrop, List.append_nil, hr]
          · rw [hpw]
            exact pfxList_ne_nil p hpmem

theorem validateExpr_parts (s : List Char) (c : Components)
    (h : validateExpr s = .ok c) :
    coreComponents (pstrip s) = .ok c ∧
    validateDesc c.descriptor c.pwords.word = .ok () := by
  unfold validateExpr getExprComponents at h
  rw [pstrip_idem] at h
  cases hcc : coreComponents (pstrip s) with
  | error e =>
    rw [hcc] at h
    have h' : (Except.error e : Except Err Components) = .ok c := h
    cases h'
  | ok c' =>
    rw [hcc] at h
    cases hvd : validateDesc c'.descriptor c'.pwords.word with
    | error e =>
      have : (do
          let x ← Except.ok c'
          validateDesc x.descriptor x.pwords.word
          pure x) = (Except.error e : Except Err Components) := by
        show (do
          let _ ← validateDesc c'.descriptor c'.pwords.word
          pure c' : Except Err Components) = _
        rw [hvd]
        rfl
      rw [this] at h
      exact absurd h (by simp)
    | ok u =>
      cases u
      have : (do
          let x ← Except.ok c'
          validateDesc x.descriptor x.pwords.word
          pure x) = (Except.ok c' : Except Err Components) := by
        show (do
          let _ ← validateDesc c'.descriptor c'.pwords.word
          pure c' : Except Err Components) = _
        rw [hvd]
        rfl
      rw [this] at h
      cases h
      exact ⟨rfl, hvd⟩

theorem validateExpr_of_parts (t : List Char) (c : Components)
    (h1 : pstrip t = t)
    (h2 : coreComponents t = .ok c)
    (h3 : validateDesc c.descriptor c.pwords.word = .ok ()) :
    validateExpr t = .ok c := by
  unfold validateExpr getExprComponents
  rw [h1, h1, h2]
  show (do
    let _ ← validateDesc c.descriptor c.pwords.word
    pure c : Except Err Components) = _
  rw [h3]
  rfl

theorem descriptor_chars_min_pos (c : Components)
    (hdmem : c.descriptor ∈ [HEX_DSC, HEX16_DSC, DEC_DSC, STR_DSC, BIN_DSC, OCT_DSC]) :
    1 ≤ c.descriptor.chars.min := by
  simp only [List.mem_cons, List.not_mem_nil, or_false] at hdmem
  rcases hdmem with h | h | h | h | h | h <;> rw [h] <;> decide

/-- C7: for every successfully constructed Expression `e`, re-parsing its
`cleaned_str` succeeds and yields an Expression with the same integer
value: `Expression(e.cleaned_str).integer_value == e.integer_value`.
(The re-parse in fact reproduces the identical components.) -/
theorem C7_cleaned_str_roundtrip (s : List Char) (c : Components)
    (h : validateExpr s = .ok c) :
    ∃ t, cleanedStr c = some t ∧
      ∃ c2, validateExpr t = .ok c2 ∧ integerValue c2 = integerValue c := by
  obtain ⟨hcc, hvd⟩ := validateExpr_parts s c h
  obtain ⟨hjoin, hpne, hdmem⟩ := coreComponents_ok _ c hcc
  have hwne : c.pwords.word ≠ [] := by
    have hlen := validateDesc_ok_len _ _ hvd
    have hmin := descriptor_chars_min_pos c hdmem
    intro hnil
    rw [hnil] at hlen
    simp at hlen
    omega
  have ht : cleanedStr c = some (pstrip s) := by
    unfold cleanedStr Elements.join
    rw [if_pos ⟨hpne, hwne⟩, hjoin]
  exact ⟨pstrip s, ht, c,
    validateExpr_of_parts (pstrip s) c (pstrip_idem s) hcc hvd, rfl⟩

/-- Witness for C7 at the concrete input `$FFD2`. -/
theorem C7_witness :
    ∃ t, cleanedStr ⟨HEX16_DSC, .hexidecimal, ⟨['$'], ['F', 'F', 'D', '2'], []⟩, fmtX04⟩
        = some t ∧
      ∃ c2, validateExpr t = .ok c2 ∧
        integerValue c2 =
          integerValue ⟨HEX16_DSC, .hexidecimal, ⟨['$'], ['F', 'F', 'D', '2'], []⟩, fmtX04⟩ :=
  C7_cleaned_str_roundtrip ['$', 'F', 'F', 'D', '2']
    ⟨HEX16_DSC, .hexidecimal, ⟨['$'], ['F', 'F', 'D', '2'], []⟩, fmtX04⟩ (by rfl)

/-! The Expression arithmetic operators (`expression.py`). -/

/-- `_Validator.test_other_numeric`: raise unless the operand has a numeric
base. -/
def testOtherNumeric (o : Components) : Except Err Unit :=
  if o.descriptor.base ∈ NUMERIC_BASES then .ok () else .error .valueErr

/-- Python `format(v, fmt)` for the format strings this code base stores in
`_Components.fmt`.  The embedded operator paths only format values `v > 0`
(`__sub__` checks the sign first), so the negative case, where Python would
emit a minus sign the Expression parser then rejects, is mapped to an
error; formatting an `int` with the string format `.255s` raises in
Python. -/
def formatFmt (fmt : List Char) (v : Int) : Except Err (List Char) :=
  if v < 0 then .error .valueErr
  else if fmt = fmtX02 then .ok (padLeft 2 (natToDigits 16 v.toNat))
  else if fmt = fmtX04 then .ok (padLeft 4 (natToDigits 16 v.toNat))
  else if fmt = fmtD02 then .ok (padLeft 2 (natToDigits 10 v.toNat))
  else if fmt = fmtB08 then .ok (padLeft 8 (natToDigits 2 v.toNat))
  else if fmt = fmtO08 then .ok (padLeft 8 (natToDigits 8 v.toNat))
  else .error .valueErr

/-- `Expression._new_expr_from_fmt`: re-format the value with the
receiver's prefix and format and build a new Expression from it. -/
def newExprFromFmt (a : Components) (v : Int) : Except Err Components := do
  let w ← formatFmt a.fmt v
  validateExpr (a.pwords.pfx ++ w)

/-- `Expression.__sub__`: validate the operand, subtract the integer
values, and only a strictly positive difference (`if val > 0`) is
re-formatted; otherwise `ValueError` is raised. -/
def subExpr (a b : Components) : Except Err Components := do
  let _ ← testOtherNumeric b
  let val := integerValue a - integerValue b
  if val > 0 then newExprFromFmt a val else .error .valueErr

/-- Shape of the components produced by a successful parse: descriptor,
format and prefix always match up as in `get_expr_components`. -/
theorem coreComponents_shape (t : List Char) (c : Components)
    (h : coreComponents t = .ok c) :
    (c.descriptor = HEX_DSC ∧ c.fmt = fmtX02 ∧
      (c.pwords.pfx = ['$'] ∨ c.pwords.pfx = ['0', 'x'])) ∨
    (c.descriptor = HEX16_DSC ∧ c.fmt = fmtX04 ∧
      (c.pwords.pfx = ['$'] ∨ c.pwords.pfx = ['0', 'x'] ∨ c.pwords.pfx = ['$', '$'])) ∨
    (c.descriptor = DEC_DSC ∧ c.fmt = fmtD02 ∧ c.pwords.pfx = ['0']) ∨
    (c.descriptor = STR_DSC ∧ c.fmt = fmtS255) ∨
    (c.descriptor = BIN_DSC ∧ c.fmt = fmtB08 ∧ c.pwords.pfx = ['%']) ∨
    (c.descriptor = OCT_DSC ∧ c.fmt = fmtO08 ∧ c.pwords.pfx = ['&']) := by
  unfold coreComponents at h
  by_cases hlen3 : t.length < 3
  · rw [if_pos hlen3] at h; exact absurd h (by simp)
  rw [if_neg hlen3] at h
  rcases hge : getElements t with ⟨pfxO, wordO, sfxO⟩
  rw [hge] at h
  cases pfxO with
  | none => exact absurd h (by simp)
  | some p =>
    cases sfxO with
    | none => exact absurd h (by simp)
    | some sfx =>
      cases wordO with
      | none => exact absurd h (by simp)
      | some w =>
        unfold selectComponents at h
        dsimp only at h
        split_ifs at h <;> cases h <;> simp_all <;> tauto

/-- Values of numeric Expressions respect their descriptor's limits. -/
theorem validateExpr_value_bound (s : List Char) (c : Components)
    (h : validateExpr s = .ok c)
    (hnum : c.descriptor.base ∈ NUMERIC_BASES) :
    0 ≤ integerValue c ∧ integerValue c < (c.descriptor.limits.max : Int) := by
  obtain ⟨hcc, hvd⟩ := validateExpr_parts s c h
  unfold validateDesc at hvd
  by_cases h1 : ¬(c.pwords.word.all (charsetOf c.descriptor.base) = true)
  · rw [if_pos h1] at hvd; exact absurd hvd (by simp)
  rw [if_neg h1] at hvd
  by_cases h2 : ¬(c.descriptor.chars.min ≤ c.pwords.word.length ∧
      c.pwords.word.length < c.descriptor.chars.max)
  · rw [if_pos h2] at hvd; exact absurd hvd (by simp)
  rw [if_neg h2, if_pos hnum] at hvd
  by_cases h3 : ¬(c.descriptor.limits.min ≤
      digitsToNat c.descriptor.base.toNat c.pwords.word ∧
      digitsToNat c.descriptor.base.toNat c.pwords.word < c.descriptor.limits.max)
  · rw [if_pos h3] at hvd; exact absurd hvd (by simp)
  · have h3' := not_not.mp h3
    unfold integerValue
    rw [if_pos hnum]
    constructor
    · exact Int.ofNat_nonneg _
    · exact_mod_cast h3'.2

theorem subExpr_eq (a b : Components) (h : testOtherNumeric b = .ok ()) :
    subExpr a b =
      if integerValue a - integerValue b > 0 then
        newExprFromFmt a (integerValue a - integerValue b)
      else .error .valueErr := by
  unfold subExpr
  rw [h]
  rfl

theorem newExprFromFmt_eq (a : Components) (v : Int) (w : List Char)
    (hfmt : formatFmt a.fmt v = .ok w) :
    newExprFromFmt a v = validateExpr (a.pwords.pfx ++ w) := by
  unfold newExprFromFmt
  rw [hfmt]
  rfl

theorem formatFmt_X02 (v : Int) (hv : 0 ≤ v) :
    formatFmt fmtX02 v = .ok (padLeft 2 (natToDigits 16 v.toNat)) := by
  unfold formatFmt
  rw [if_neg (by omega), if_pos rfl]

theorem formatFmt_X04 (v : Int) (hv : 0 ≤ v) :
    formatFmt fmtX04 v = .ok (padLeft 4 (natToDigits 16 v.toNat)) := by
  unfold formatFmt
  rw [if_neg (by omega), if_neg (by decide), if_pos rfl]

theorem formatFmt_D02 (v : Int) (hv : 0 ≤ v) :
    formatFmt fmtD02 v = .ok (padLeft 2 (natToDigits 10 v.toNat)) := by
  unfold formatFmt
  rw [if_neg (by omega), if_neg (by decide), if_neg (by decide), if_pos rfl]

theorem formatFmt_B08 (v : Int) (hv : 0 ≤ v) :
    formatFmt fmtB08 v = .ok (padLeft 8 (natToDigits 2 v.toNat)) := by
  unfold formatFmt
  rw [if_neg (by omega), if_neg (by decide), if_neg (by decide),
      if_neg (by decide), if_pos rfl]

theorem formatFmt_O08 (v : Int) (hv : 0 ≤ v) :
    formatFmt fmtO08 v = .ok (padLeft 8 (natToDigits 8 v.toNat)) := by
  unfold formatFmt
  rw [if_neg (by omega), if_neg (by decide), if_neg (by decide),
      if_neg (by decide), if_neg (by decide), if_pos rfl]

/-- The Expression built from the literal `$05`. -/
def exprDollar05 : Components :=
  ⟨HEX_DSC, .hexidecimal, ⟨['$'], ['0', '5'], []⟩, fmtX02⟩

/-- C8 counterexample: the claim says `a - b` fails exactly when
`a.integer_value - b.integer_value` is negative, but `$05 - $05` has
difference `0`, which is not negative, and `__sub__` still raises
(`if val > 0` excludes zero). -/
theorem C8_counterexample :
    validateExpr ['$', '0', '5'] = .ok exprDollar05 ∧
    integerValue exprDollar05 - integerValue exprDollar05 = 0 ∧
    subExpr exprDollar05 exprDollar05 = .error .valueErr := by
  refine ⟨by rfl, by rfl, by rfl⟩

/-- C8 amended: for numeric Expressions `a` and `b`, `a - b` raises exactly
when the difference `a.integer_value - b.integer_value` is zero or negative
or when the receiver is octal (whose re-formatted eight-digit literal
violates the octal descriptor's length bound); for a positive difference on
a hex, decimal or binary receiver it produces a new Expression carrying the
receiver's prefix whose integer value is the difference. -/
theorem C8_sub_amended (sa sb : List Char) (a b : Components)
    (ha : validateExpr sa = .ok a) (hb : validateExpr sb = .ok b)
    (hna : a.descriptor.base ∈ NUMERIC_BASES)
    (hnb : b.descriptor.base ∈ NUMERIC_BASES) :
    (integerValue a ≤ integerValue b → subExpr a b = .error .valueErr) ∧
    (a.descriptor = OCT_DSC → ∃ e, subExpr a b = .error e) ∧
    (integerValue b < integerValue a → a.descriptor ≠ OCT_DSC →
      ∃ c', subExpr a b = .ok c' ∧
        integerValue c' = integerValue a - integerValue b ∧
        c'.pwords.pfx = a.pwords.pfx) := by
  obtain ⟨hcc, _⟩ := validateExpr_parts sa a ha
  have hshape := coreComponents_shape _ _ hcc
  have habound := validateExpr_value_bound sa a ha hna
  have hbbound := validateExpr_value_bound sb b hb hnb
  have htest : testOtherNumeric b = .ok () := by
    unfold testOtherNumeric
    rw [if_pos hnb]
  refine ⟨?_, ?_, ?_⟩
  · intro hle
    rw [subExpr_eq a b htest, if_neg (by omega)]
  · intro hoct
    by_cases hpos : integerValue a - integerValue b > 0
    · refine ⟨.minMaxLenErr, ?_⟩
      rw [subExpr_eq a b htest, if_pos hpos]
      have hfmt : a.fmt = fmtO08 := by
        rcases hshape with h | h | h | h | h | h <;>
          first
          | exact h.2.1
          | (exfalso; rw [h.1] at hoct; exact absurd hoct (by decide))
      have hpfx : a.pwords.pfx = ['&'] := by
        rcases hshape with h | h | h | h | h | h <;>
          first
          | exact h.2.2
          | (exfalso; rw [h.1] at hoct; exact absurd hoct (by decide))
      rw [newExprFromFmt_eq a _ _ (by rw [hfmt]; exact formatFmt_O08 _ (by omega))]
      rw [hpfx]
      have hvmax : integerValue a < 65536 := by
        have := habound.2
        rw [hoct] at this
        simpa [OCT_DSC, MAX_16BIT_VALUE] using this
      exact parse_oct_err _ (by omega)
    · rw [subExpr_eq a b htest, if_neg hpos]
      exact ⟨.valueErr, rfl⟩
  · intro hgt hnoct
    have hpos : integerValue a - integerValue b > 0 := by omega
    rw [subExpr_eq a b htest, if_pos hpos]
    set val := integerValue a - integerValue b with hvaldef
    have hvnn : 0 ≤ val := by omega
    have hvcast : ((val.toNat : Int)) = val := Int.toNat_of_nonneg hvnn
    rcases hshape with h | h | h | h | h | h
    · -- 8-bit hex receiver
      have hmax : integerValue a < 256 := by
        have := habound.2
        rw [h.1] at this
        simpa [HEX_DSC, MAX_8BIT_VALUE] using this
      have hv256 : val.toNat < 256 := by omega
      rw [newExprFromFmt_eq a _ _ (by rw [h.2.1]; exact formatFmt_X02 _ hvnn)]
      rcases h.2.2 with hpfx | hpfx
      · obtain ⟨hp, hval⟩ := parse_hex8_dollar val.toNat hv256
        rw [hpfx]
        exact ⟨_, hp, by rw [hval, hvcast], rfl⟩
      · obtain ⟨hp, hval⟩ := parse_hex8_0x val.toNat hv256
        rw [hpfx]
        exact ⟨_, hp, by rw [hval, hvcast], rfl⟩
    · -- 16-bit hex receiver
      have hmax : integerValue a < 65536 := by
        have := habound.2
        rw [h.1] at this
        simpa [HEX16_DSC, MAX_16BIT_VALUE] using this
      have hv65536 : val.toNat < 65536 := by omega
      rw [newExprFromFmt_eq a _ _ (by rw [h.2.1]; exact formatFmt_X04 _ hvnn)]
      rcases h.2.2 with hpfx | hpfx | hpfx
      · obtain ⟨hp, hval⟩ := parse_hex16_dollar val.toNat hv65536
        rw [hpfx]
        exact ⟨_, hp, by rw [hval, hvcast], rfl⟩
      · obtain ⟨hp, hval⟩ := parse_hex16_0x val.toNat hv65536
        rw [hpfx]
        exact ⟨_, hp, by rw [hval, hvcast], rfl⟩
      · obtain ⟨hp, hval⟩ := parse_hex16_dollar2 val.toNat hv65536
        rw [hpfx]
        exact ⟨_, hp, by rw [hval, hvcast], rfl⟩
    · -- decimal receiver
      have hmax : integerValue a < 65536 := by
        have := habound.2
        rw [h.1] at this
        simpa [DEC_DSC, MAX_16BIT_VALUE] using this
      have hv65536 : val.toNat < 65536 := by omega
      rw [newExprFromFmt_eq a _ _ (by rw [h.2.1]; exact formatFmt_D02 _ hvnn)]
      obtain ⟨hp, hval⟩ := parse_dec 2 val.toNat (by omega) hv65536 (Or.inl (by omega))
      rw [h.2.2]
      exact ⟨_, hp, by rw [hval, hvcast], rfl⟩
    · -- string receiver is excluded by the numeric-base hypothesis
      exfalso
      rw [h.1] at hna
      exact absurd hna (by decide)
    · -- binary receiver
      have hmax : integerValue a < 256 := by
        have := habound.2
        rw [h.1] at this
        simpa [BIN_DSC, MAX_8BIT_VALUE] using this
      have hv256 : val.toNat < 256 := by omega
      rw [newExprFromFmt_eq a _ _ (by rw [h.2.1]; exact formatFmt_B08 _ hvnn)]
      obtain ⟨hp, hval⟩ := parse_bin val.toNat hv256
      rw [h.2.2]
      exact ⟨_, hp, by rw [hval, hvcast], rfl⟩
    · -- octal receiver is excluded by hypothesis
      exact absurd h.1 hnoct

/-- Witness for the amended C8 at `$07 - $05`. -/
theorem C8_witness :
    (integerValue exprDollar05 < integerValue
        ⟨HEX_DSC, .hexidecimal, ⟨['$'], ['0', '7'], []⟩, fmtX02⟩) ∧
    ∃ c', subExpr ⟨HEX_DSC, .hexidecimal, ⟨['$'], ['0', '7'], []⟩, fmtX02⟩ exprDollar05
        = .ok c' ∧
      integerValue c' =
        integerValue ⟨HEX_DSC, .hexidecimal, ⟨['$'], ['0', '7'], []⟩, fmtX02⟩ -
          integerValue exprDollar05 ∧
      c'.pwords.pfx =
        (⟨HEX_DSC, .hexidecimal, ⟨['$'], ['0', '7'], []⟩, fmtX02⟩ : Components).pwords.pfx :=
  ⟨by decide,
    ((C8_sub_amended ['$', '0', '7'] ['$', '0', '5']
      ⟨HEX_DSC, .hexidecimal, ⟨['$'], ['0', '7'], []⟩, fmtX02⟩ exprDollar05
      (by rfl) (by rfl) (by decide) (by decide)).2.2 (by decide) (by decide))⟩

/-! The `Convert` rewriting helper.

Modelled from the spec: `core/__init__.py` imports a `Convert` class
(`from .convert import Convert`) that is used by `instruction_pointer.py`,
the directives and the test suite, but no `Convert` class exists under
`src/` — `core/convert.py` defines only `ExpressionConversion` and
`core/conversion.py` is an incomplete fragment that does not parse.  The
spec (§4.1) says `Convert(e)` "produces... canonical rewrites of the same
integer into new Expressions": `to_hex16` a 16-bit hex Expression (the
repo's own `core_tests.py` expects `Convert(Expression("0100")).to_hex16()`
to print as `$0064`, a `$`-prefixed four-digit uppercase literal), and
`to_decimal` a decimal Expression (leading `0`, at least two digits per the
Expression grammar).  `to_decimal_int` returns the plain integer value. -/

/-- Modelled from the spec: `Convert(e).to_hex16()`. -/
def convertToHex16 (e : Components) : Except Err Components :=
  validateExpr ('$' :: padLeft 4 (natToDigits 16 (integerValue e).toNat))

/-- Modelled from the spec: `Convert(e).to_decimal()`. -/
def convertToDecimal (e : Components) : Except Err Components :=
  validateExpr ('0' :: padLeft 2 (natToDigits 10 (integerValue e).toNat))

/-- Modelled from the spec: `Convert(e).to_decimal_int()`. -/
def convertToDecimalInt (e : Components) : Int :=
  integerValue e

/-- `Expression.__eq__`: Expressions compare equal by integer value. -/
def exprEq (a b : Components) : Bool :=
  integerValue a == integerValue b

/-- All numeric Expression descriptors bound their value by 65536. -/
theorem descriptor_limits_le (c : Components)
    (hdmem : c.descriptor ∈ [HEX_DSC, HEX16_DSC, DEC_DSC, STR_DSC, BIN_DSC, OCT_DSC]) :
    c.descriptor.limits.max ≤ 65536 := by
  simp only [List.mem_cons, List.not_mem_nil, or_false] at hdmem
  rcases hdmem with h | h | h | h | h | h <;> rw [h] <;> decide

/-- C9: for every numeric Expression `e`, converting to 16-bit hex and back
to decimal yields an Expression equal to `e` (equality being the integer
value comparison of `Expression.__eq__`):
`Convert(Convert(e).to_hex16()).to_decimal() == e`. -/
theorem C9_convert_roundtrip (s : List Char) (e : Components)
    (h : validateExpr s = .ok e)
    (hnum : e.descriptor.base ∈ NUMERIC_BASES) :
    ∃ hx, convertToHex16 e = .ok hx ∧
      ∃ d, convertToDecimal hx = .ok d ∧ exprEq d e = true := by
  obtain ⟨hcc, _⟩ := validateExpr_parts s e h
  obtain ⟨_, _, hdmem⟩ := coreComponents_ok _ e hcc
  have hbound := validateExpr_value_bound s e h hnum
  have hmax := descriptor_limits_le e hdmem
  have hlt : integerValue e < 65536 := by
    have := hbound.2
    omega
  set n := (integerValue e).toNat with hn
  have hvcast : ((n : Int)) = integerValue e := Int.toNat_of_nonneg hbound.1
  have hn65536 : n < 65536 := by omega
  obtain ⟨hp, hval⟩ := parse_hex16_dollar n hn65536
  refine ⟨_, hp, ?_⟩
  unfold convertToDecimal
  rw [hval]
  have htoNat : ((n : Int)).toNat = n := Int.toNat_natCast n
  rw [htoNat]
  obtain ⟨hp2, hval2⟩ := parse_dec 2 n (by omega) hn65536 (Or.inl (by omega))
  refine ⟨_, hp2, ?_⟩
  unfold exprEq
  rw [hval2, hvcast]
  simp

/-- Witness for C9 at the concrete input `0100` (decimal 100). -/
theorem C9_witness :
    ∃ hx, convertToHex16 ⟨DEC_DSC, .decimal, ⟨['0'], ['1', '0', '0'], []⟩, fmtD02⟩ = .ok hx ∧
      ∃ d, convertToDecimal hx = .ok d ∧
        exprEq d ⟨DEC_DSC, .decimal, ⟨['0'], ['1', '0', '0'], []⟩, fmtD02⟩ = true :=
  C9_convert_roundtrip ['0', '1', '0', '0']
    ⟨DEC_DSC, .decimal, ⟨['0'], ['1', '0', '0'], []⟩, fmtD02⟩ (by rfl) (by decide)

/-! The InstructionPointer state machine (`cpu/instruction_pointer.py`).

The singleton's two fields `_pointer` and `_section_base` are both
Expressions; `Convert(...).to_decimal_int()` (the missing `Convert` class,
modelled above) reads an Expression's integer value.  Raising an exception
leaves the Python object unmutated, so failure is modelled as an `Except`
error with no new state. -/

/-- The two Expression fields of the `InstructionPointer` singleton. -/
structure IPState where
  pointer : Components
  sectionBase : Components
  deriving DecidableEq, Repr

/-- `InstructionPointer.move_pointer_relative`: add `val` to the current
pointer value; if the result stays within `0..65535` store it back as the
decimal Expression `f"0{curr:04d}"` and succeed (Python returns `True`),
otherwise raise `ValueError` leaving the pointer untouched. -/
def movePointerRelative (ip : IPState) (val : Int) : Except Err IPState :=
  if 65536 > convertToDecimalInt ip.pointer + val ∧
      convertToDecimalInt ip.pointer + val ≥ 0 then do
    let p ← validateExpr
      ('0' :: padLeft 4 (natToDigits 10 (convertToDecimalInt ip.pointer + val).toNat))
    pure { ip with pointer := p }
  else .error .valueErr

/-- `InstructionPointer.move_relative`: reject a non-8-bit Expression, read
the byte, interpret bit 7 as the two's-complement sign
(`((rel ^ MAX_8BIT_VALUE) + 1) * -1 if neg else rel`), try
`move_pointer_relative` and turn any of its exceptions into `False`. -/
def moveRelative (ip : IPState) (rel : Components) : Except Err (IPState × Bool) :=
  if (BaseDescriptor.limitsProp rel.descriptor).max > MAX_8BIT_VALUE + 1 then
    .error .valueErr
  else
    match movePointerRelative ip
        (if (convertToDecimalInt rel).toNat >>> 7 ≠ 0 then
          -((((convertToDecimalInt rel).toNat ^^^ MAX_8BIT_VALUE) + 1 : Nat) : Int)
        else ((convertToDecimalInt rel).toNat : Int)) with
    | .ok ip' => .ok (ip', true)
    | .error _ => .ok (ip, false)

/-- The two's-complement signed reading of an 8-bit relative Expression, as
the spec describes it: bit 7 set means negative. -/
def signedDisplacement (rel : Components) : Int :=
  if 128 ≤ (integerValue rel).toNat then ((integerValue rel).toNat : Int) - 256
  else ((integerValue rel).toNat : Int)

theorem movePointerRelative_spec (ip : IPState) (delta : Int)
    (hin : 0 ≤ integerValue ip.pointer + delta ∧
           integerValue ip.pointer + delta ≤ 65535) :
    ∃ ip', movePointerRelative ip delta = .ok ip' ∧
      integerValue ip'.pointer = integerValue ip.pointer + delta ∧
      ip'.sectionBase = ip.sectionBase := by
  unfold movePointerRelative convertToDecimalInt
  rw [if_pos (by omega)]
  obtain ⟨hp, hval⟩ := parse_dec 4 (integerValue ip.pointer + delta).toNat
    (by omega) (by omega) (Or.inl (by omega))
  rw [hp]
  refine ⟨_, rfl, ?_, rfl⟩
  rw [hval]
  omega

theorem movePointerRelative_err (ip : IPState) (delta : Int)
    (hout : integerValue ip.pointer + delta < 0 ∨
            65535 < integerValue ip.pointer + delta) :
    movePointerRelative ip delta = .error .valueErr := by
  unfold movePointerRelative convertToDecimalInt
  rw [if_neg (by omega)]

theorem limitsProp_of_numeric (d : BaseDescriptor) (h : d.base ∈ NUMERIC_BASES) :
    BaseDescriptor.limitsProp d = d.limits := by
  unfold BaseDescriptor.limitsProp
  rw [if_neg]
  have h4 : d.base = 2 ∨ d.base = 8 ∨ d.base = 10 ∨ d.base = 16 := by
    simpa [NUMERIC_BASES] using h
  unfold BASE_STR BASE_LAB
  rcases h4 with h' | h' | h' | h' <;> rw [h'] <;> simp

/-- C4: `move_pointer_relative(delta)` from a pointer value `p` in
`0..65535` either succeeds with the pointer set to `p + delta` (when
`0 <= p + delta <= 65535`, leaving the section base unchanged and
preserving the 16-bit invariant) or raises a `ValueError` (leaving the
state as it was, since the exception is raised before any mutation). -/
theorem C4_move_pointer_relative (ip : IPState) (delta : Int)
    (hwf : 0 ≤ integerValue ip.pointer ∧ integerValue ip.pointer ≤ 65535) :
    (0 ≤ integerValue ip.pointer + delta ∧ integerValue ip.pointer + delta ≤ 65535 →
      ∃ ip', movePointerRelative ip delta = .ok ip' ∧
        integerValue ip'.pointer = integerValue ip.pointer + delta ∧
        ip'.sectionBase = ip.sectionBase ∧
        0 ≤ integerValue ip'.pointer ∧ integerValue ip'.pointer ≤ 65535) ∧
    ((integerValue ip.pointer + delta < 0 ∨ 65535 < integerValue ip.pointer + delta) →
      movePointerRelative ip delta = .error .valueErr) := by
  constructor
  · intro hin
    obtain ⟨ip', h1, h2, h3⟩ := movePointerRelative_spec ip delta hin
    exact ⟨ip', h1, h2, h3, by omega, by omega⟩
  · exact movePointerRelative_err ip delta

/-- The `InstructionPointer` singleton's initial state:
`_pointer = Expression("0x0000")`, `_section_base = Expression("0x00")`. -/
def ipZero : IPState :=
  ⟨⟨HEX16_DSC, .hexidecimal, ⟨['0', 'x'], ['0', '0', '0', '0'], []⟩, fmtX04⟩,
   ⟨HEX_DSC, .hexidecimal, ⟨['0', 'x'], ['0', '0'], []⟩, fmtX02⟩⟩

theorem ipZero_is_init :
    validateExpr ['0', 'x', '0', '0', '0', '0'] = .ok ipZero.pointer ∧
    validateExpr ['0', 'x', '0', '0'] = .ok ipZero.sectionBase := by
  exact ⟨by rfl, by rfl⟩

/-- Witness for C4 at the initial pointer and `delta = 0x1100`. -/
theorem C4_witness :
    ∃ ip', movePointerRelative ipZero 4352 = .ok ip' ∧
      integerValue ip'.pointer = integerValue ipZero.pointer + 4352 ∧
      ip'.sectionBase = ipZero.sectionBase ∧
      0 ≤ integerValue ip'.pointer ∧ integerValue ip'.pointer ≤ 65535 :=
  (C4_move_pointer_relative ipZero 4352 (by decide)).1 (by decide)

theorem xor255_eq : ∀ r, r < 256 → r ^^^ 255 = 255 - r := by decide

/-- C10: for every numeric 8-bit Expression `rel`, `move_relative(rel)`
never raises: it returns `False` leaving both the pointer and the section
base untouched when adding the two's-complement signed displacement of
`rel` (bit 7 set means negative) would leave `0..65535`, and otherwise
returns `True` with the pointer advanced by exactly that displacement. -/
theorem C10_move_relative (ip : IPState) (s : List Char) (rel : Components)
    (hrel : validateExpr s = .ok rel)
    (hnum : rel.descriptor.base ∈ NUMERIC_BASES)
    (h8 : (BaseDescriptor.limitsProp rel.descriptor).max ≤ 256) :
    ∃ st' b, moveRelative ip rel = .ok (st', b) ∧
      ((0 ≤ integerValue ip.pointer + signedDisplacement rel ∧
        integerValue ip.pointer + signedDisplacement rel ≤ 65535) →
        b = true ∧
        integerValue st'.pointer = integerValue ip.pointer + signedDisplacement rel ∧
        st'.sectionBase = ip.sectionBase) ∧
      ((integerValue ip.pointer + signedDisplacement rel < 0 ∨
        65535 < integerValue ip.pointer + signedDisplacement rel) →
        st' = ip ∧ b = false) := by
  have hbound := validateExpr_value_bound s rel hrel hnum
  have hlp := limitsProp_of_numeric rel.descriptor hnum
  have hmax : integerValue rel < 256 := by
    rw [hlp] at h8
    have h2 := hbound.2
    have h3 : (rel.descriptor.limits.max : Int) ≤ 256 := by exact_mod_cast h8
    omega
  have hr255 : (integerValue rel).toNat ≤ 255 := by omega
  have hdisp : (if (convertToDecimalInt rel).toNat >>> 7 ≠ 0 then
        -((((convertToDecimalInt rel).toNat ^^^ MAX_8BIT_VALUE) + 1 : Nat) : Int)
      else ((convertToDecimalInt rel).toNat : Int)) = signedDisplacement rel := by
    unfold convertToDecimalInt signedDisplacement MAX_8BIT_VALUE
    have hshift : (integerValue rel).toNat >>> 7 = (integerValue rel).toNat / 128 := by
      rw [Nat.shiftRight_eq_div_pow]
    by_cases hneg : 128 ≤ (integerValue rel).toNat
    · rw [if_pos (by rw [hshift]; omega), if_pos hneg]
      rw [xor255_eq (integerValue rel).toNat (by omega)]
      have h1 : ((255 - (integerValue rel).toNat) + 1 : Nat)
          = 256 - (integerValue rel).toNat := by omega
      rw [h1, Int.ofNat_sub (by omega : (integerValue rel).toNat ≤ 256)]
      omega
    · rw [if_neg (by rw [hshift]; omega), if_neg hneg]
  unfold moveRelative
  rw [if_neg (by unfold MAX_8BIT_VALUE; omega), hdisp]
  by_cases hin : 0 ≤ integerValue ip.pointer + signedDisplacement rel ∧
      integerValue ip.pointer + signedDisplacement rel ≤ 65535
  · obtain ⟨ip', h1, h2, h3⟩ := movePointerRelative_spec ip _ hin
    rw [h1]
    exact ⟨ip', true, rfl, fun _ => ⟨rfl, h2, h3⟩, fun hout => by omega⟩
  · rw [movePointerRelative_err ip (signedDisplacement rel) (by omega)]
    exact ⟨ip, false, rfl, fun hin' => absurd hin' hin, fun _ => ⟨rfl, rfl⟩⟩

/-- The IP state with the pointer at `0xFFD2` (as in the repo's own
`ip_tests.py` relative-move test). -/
def ipFFD2 : IPState :=
  ⟨⟨HEX16_DSC, .hexidecimal, ⟨['0', 'x'], ['F', 'F', 'D', '2'], []⟩, fmtX04⟩,
   ⟨HEX_DSC, .hexidecimal, ⟨['0', 'x'], ['0', '0'], []⟩, fmtX02⟩⟩

/-- The 8-bit relative Expression `0xFB` (two's complement -5). -/
def relFB : Components :=
  ⟨HEX_DSC, .hexidecimal, ⟨['0', 'x'], ['F', 'B'], []⟩, fmtX02⟩

/-- Witness for C10: moving `0xFB` (-5) from `0xFFD2`. -/
theorem C10_witness :
    ∃ st' b, moveRelative ipFFD2 relFB = .ok (st', b) ∧
      ((0 ≤ integerValue ipFFD2.pointer + signedDisplacement relFB ∧
        integerValue ipFFD2.pointer + signedDisplacement relFB ≤ 65535) →
        b = true ∧
        integerValue st'.pointer =
          integerValue ipFFD2.pointer + signedDisplacement relFB ∧
        st'.sectionBase = ipFFD2.sectionBase) ∧
      ((integerValue ipFFD2.pointer + signedDisplacement relFB < 0 ∨
        65535 < integerValue ipFFD2.pointer + signedDisplacement relFB) →
        st' = ipFFD2 ∧ b = false) :=
  C10_move_relative ipFFD2 ['0', 'x', 'F', 'B'] relFB (by rfl) (by decide) (by decide)

/-! The storage directive handlers (`directives/storage.py`). -/

/-- Modelled from the spec: `EC().decimal_from_expression(s)` as used by
`StorageParser` — the name `EC` is unbound in `storage.py` itself (sibling
modules bind `EC = Convert`, and the `Convert` class is missing from src);
per the spec it parses an expression string and yields its integer value,
failing on an invalid expression. -/
def decimalFromExpression (s : List Char) : Except Err Int :=
  (validateExpr s).map integerValue

/-- `StorageParser._to_space` (the `DS` handler): the first component is
the byte count, the second (if any) the fill value; further components are
ignored.  The source computes `valid = (size in range(0, 1024))` and then
immediately overwrites it with `valid = (value in range(0, 256))`, so only
the value check is effective.  On success the data is `size` copies of
`value`. -/
def toSpace (components : List (List Char)) : Except Err (List Nat) := do
  let size ← match components with
    | [] => pure (1 : Int)
    | c0 :: _ => decimalFromExpression (pstrip c0)
  let value ← match components with
    | [] | [_] => pure (0 : Int)
    | _ :: c1 :: _ => decimalFromExpression (pstrip c1)
  if 0 ≤ value ∧ value < 256 then
    pure (List.replicate size.toNat value.toNat)
  else .error .storageErr

/-- Loop body of `StorageParser._to_byte_array`: while `bits > 0`, insert
`val & 0xff` at the front and shift `val` right by 8. -/
def toByteArrayGo (val : Nat) (bits : Nat) (acc : List Nat) : List Nat :=
  if bits = 0 then acc
  else toByteArrayGo (val >>> 8) (bits - 8) ((val &&& 255) :: acc)
termination_by bits
decreasing_by
  omega

/-- `StorageParser._to_byte_array`. -/
def toByteArray (val : Nat) (bits : Nat) : List Nat :=
  toByteArrayGo val bits []

/-- `StorageParser._to_words` (the `DW` handler): each component must be a
value in `0..65535` and contributes `_to_byte_array(num, 16)` — two bytes,
high byte first.  Exceptions propagate (explicit `match` on the error). -/
def toWords : List (List Char) → Except Err (List Nat)
  | [] => .ok []
  | item :: rest =>
    match decimalFromExpression (pstrip item) with
    | .error e => .error e
    | .ok num =>
      if 0 ≤ num ∧ num < 65536 then
        match toWords rest with
        | .error e => .error e
        | .ok tail => .ok (toByteArray num.toNat 16 ++ tail)
      else .error .storageErr

theorem toByteArrayGo_zero (val : Nat) (acc : List Nat) :
    toByteArrayGo val 0 acc = acc := by
  rw [toByteArrayGo]
  simp

theorem toByteArrayGo_step (val bits : Nat) (acc : List Nat) (h : bits ≠ 0) :
    toByteArrayGo val bits acc
      = toByteArrayGo (val >>> 8) (bits - 8) ((val &&& 255) :: acc) := by
  rw [toByteArrayGo]
  rw [if_neg h]

/-- `_to_byte_array(v, 16)` produces the big-endian pair: high byte first. -/
theorem toByteArray16 (v : Nat) : toByteArray v 16 = [v / 256 % 256, v % 256] := by
  unfold toByteArray
  rw [toByteArrayGo_step _ _ _ (by omega)]
  rw [toByteArrayGo_step _ _ _ (by omega)]
  rw [show (16 : Nat) - 8 - 8 = 0 by omega, toByteArrayGo_zero]
  have hand : ∀ m : Nat, m &&& 255 = m % 256 := fun m => by
    have := Nat.and_pow_two_sub_one_eq_mod m 8
    simpa using this
  have hshr : v >>> 8 = v / 256 := by
    rw [Nat.shiftRight_eq_div_pow]
  rw [hand v, hshr, hand (v / 256)]

/-- The two bytes `_to_words` emits for a value below 65536. -/
def wordBytes (v : Nat) : List Nat := [v / 256, v % 256]

/-- C1 counterexample: the claim says the fill values of
`DS $05 $01 $02 $03` are tiled, emitting `01 02 03 01 02`; the handler
instead fills all five bytes with the first value, emitting
`01 01 01 01 01`. -/
theorem C1_counterexample :
    toSpace [['$', '0', '5'], ['$', '0', '1'], ['$', '0', '2'], ['$', '0', '3']]
      = .ok [1, 1, 1, 1, 1] ∧
    ([1, 1, 1, 1, 1] : List Nat) ≠ [1, 2, 3, 1, 2] :=
  ⟨by rfl, by decide⟩

/-- C1 amended: for a `DS` directive with a size expression of value `n`
and at least one fill value of value `v` in `0..255`, the handler emits
exactly `n` bytes each equal to `v` (not reduced modulo 256 — values
outside `0..255` are rejected), ignoring any further fill values. -/
theorem C1_ds_amended (components : List (List Char)) (c0 c1 : List Char)
    (rest : List (List Char)) (n v : Int)
    (hcomp : components = c0 :: c1 :: rest)
    (h0 : decimalFromExpression (pstrip c0) = .ok n)
    (h1 : decimalFromExpression (pstrip c1) = .ok v)
    (hv : 0 ≤ v ∧ v < 256) :
    ∃ data, toSpace components = .ok data ∧
      data.length = n.toNat ∧ ∀ x ∈ data, x = v.toNat := by
  subst hcomp
  have hstep : toSpace (c0 :: c1 :: rest) = (do
      let size ← decimalFromExpression (pstrip c0)
      let value ← decimalFromExpression (pstrip c1)
      if 0 ≤ value ∧ value < 256 then
        pure (List.replicate size.toNat value.toNat)
      else .error .storageErr) := rfl
  rw [hstep, h0]
  have hstep2 : (do
      let size ← (Except.ok n : Except Err Int)
      let value ← decimalFromExpression (pstrip c1)
      if 0 ≤ value ∧ value < 256 then
        pure (List.replicate size.toNat value.toNat)
      else .error .storageErr) = (do
      let value ← decimalFromExpression (pstrip c1)
      if 0 ≤ value ∧ value < 256 then
        pure (List.replicate n.toNat value.toNat)
      else (.error .storageErr : Except Err (List Nat))) := rfl
  rw [hstep2, h1]
  have hstep3 : (do
      let value ← (Except.ok v : Except Err Int)
      if 0 ≤ value ∧ value < 256 then
        pure (List.replicate n.toNat value.toNat)
      else (.error .storageErr : Except Err (List Nat)))
      = if 0 ≤ v ∧ v < 256 then .ok (List.replicate n.toNat v.toNat)
        else .error .storageErr := rfl
  rw [hstep3, if_pos hv]
  refine ⟨_, rfl, by simp, ?_⟩
  intro x hx
  exact List.eq_of_mem_replicate hx

/-- Witness for the amended C1 at the input of the spec's example. -/
theorem C1_witness :
    ∃ data,
      toSpace [['$', '0', '5'], ['$', '0', '1'], ['$', '0', '2'], ['$', '0', '3']]
        = .ok data ∧
      data.length = (5 : Int).toNat ∧ ∀ x ∈ data, x = (1 : Int).toNat :=
  C1_ds_amended _ ['$', '0', '5'] ['$', '0', '1'] [['$', '0', '2'], ['$', '0', '3']]
    5 1 rfl (by rfl) (by rfl) (by omega)

/-- Equation lemma for `toWords` on a non-empty operand list. -/
theorem toWords_cons (item : List Char) (rest : List (List Char)) :
    toWords (item :: rest) =
      match decimalFromExpression (pstrip item) with
      | .error e => .error e
      | .ok num =>
        if 0 ≤ num ∧ num < 65536 then
          match toWords rest with
          | .error e => .error e
          | .ok tail => .ok (toByteArray num.toNat 16 ++ tail)
        else .error .storageErr := by
  rw [toWords]

/-- Helper: `_to_words` emits, for each operand value `v` in `0..65535`,
the big-endian byte pair `[v / 256, v % 256]`. -/
theorem toWords_big_endian (items : List (List Char)) (vals : List Nat)
    (h : List.Forall₂
      (fun (item : List Char) (v : Nat) =>
        decimalFromExpression (pstrip item) = .ok (v : Int) ∧ v < 65536)
      items vals) :
    toWords items = .ok ((vals.map wordBytes).flatten) := by
  induction h with
  | nil => rw [toWords]; rfl
  | @cons item v items' vals' hpair htail ih =>
    rw [toWords_cons, hpair.1]
    dsimp only
    rw [if_pos ⟨by positivity, by exact_mod_cast hpair.2⟩, ih]
    dsimp only
    rw [Int.toNat_natCast, toByteArray16]
    have hdiv : v / 256 % 256 = v / 256 :=
      Nat.mod_eq_of_lt (by omega)
    rw [hdiv]
    rfl

/-- C2 counterexample: the claim says `DW $FFD2 $1234` emits the
little-endian bytes `D2 FF 34 12`; the handler emits big-endian
`FF D2 12 34` (`_to_byte_array` inserts each low byte at the front). -/
theorem C2_counterexample :
    toWords [['$', 'F', 'F', 'D', '2'], ['$', '1', '2', '3', '4']]
      = .ok [0xFF, 0xD2, 0x12, 0x34] ∧
    ([0xFF, 0xD2, 0x12, 0x34] : List Nat) ≠ [0xD2, 0xFF, 0x34, 0x12] := by
  constructor
  · rw [toWords_big_endian _ [0xFFD2, 0x1234]
      (List.Forall₂.cons ⟨by rfl, by omega⟩
        (List.Forall₂.cons ⟨by rfl, by omega⟩ List.Forall₂.nil))]
    rfl
  · decide

/-- C2 amended: every `DW` operand value `v` in `0..65535` is emitted as
exactly two bytes in big-endian order — high byte `v / 256` first, then low
byte `v % 256`. -/
theorem C2_dw_amended (items : List (List Char)) (vals : List Nat)
    (h : List.Forall₂
      (fun (item : List Char) (v : Nat) =>
        decimalFromExpression (pstrip item) = .ok (v : Int) ∧ v < 65536)
      items vals) :
    toWords items = .ok ((vals.map wordBytes).flatten) :=
  toWords_big_endian items vals h

/-- Witness for the amended C2 at the spec's example `DW $FFD2 $1234`. -/
theorem C2_witness :
    toWords [['$', 'F', 'F', 'D', '2'], ['$', '1', '2', '3', '4']]
      = .ok ((([0xFFD2, 0x1234] : List Nat).map wordBytes).flatten) :=
  C2_dw_amended [['$', 'F', 'F', 'D', '2'], ['$', '1', '2', '3', '4']]
    [0xFFD2, 0x1234]
    (List.Forall₂.cons ⟨by rfl, by omega⟩
      (List.Forall₂.cons ⟨by rfl, by omega⟩ List.Forall₂.nil))

/-! The SECTION model (`directives/section.py`). -/

/-- Python `str.upper` on an ASCII character. -/
def toUpperCh (c : Char) : Char :=
  if 97 ≤ c.toNat ∧ c.toNat ≤ 122 then Char.ofNat (c.toNat - 32) else c

/-- Python `str.upper` on a string. -/
def pupper (l : List Char) : List Char := l.map toUpperCh

/-- The `_mem_blocks` table of `SectionType`: each named memory bank with
the source strings of its start and end address Expressions, in source
order. -/
def memBlocks : List (List Char × List Char × List Char) :=
  [(['W', 'R', 'A', 'M', '0'], ['0', 'x', 'C', '0', '0', '0'], ['0', 'x', 'C', 'F', 'F', 'F']),
   (['V', 'R', 'A', 'M'], ['0', 'x', '8', '0', '0', '0'], ['0', 'x', '9', 'F', 'F', 'F']),
   (['R', 'O', 'M', 'X'], ['0', 'x', '4', '0', '0', '0'], ['0', 'x', '7', 'F', 'F', 'F']),
   (['R', 'O', 'M', '0'], ['0', 'x', '0', '0', '0', '0'], ['0', 'x', '3', 'F', 'F', 'F']),
   (['H', 'R', 'A', 'M'], ['0', 'x', 'F', 'F', '8', '0'], ['0', 'x', 'F', 'F', 'F', 'E']),
   (['W', 'R', 'A', 'M', 'X'], ['0', 'x', 'D', '0', '0', '0'], ['0', 'x', 'D', 'F', 'F', 'F']),
   (['S', 'R', 'A', 'M'], ['0', 'x', 'A', '0', '0', '0'], ['0', 'x', 'B', 'F', 'F', 'F']),
   (['O', 'A', 'M'], ['0', 'x', 'F', 'E', '0', '0'], ['0', 'x', 'F', 'E', '9', 'F'])]

/-- `SectionType.sectiontype_info`: find the block whose name equals the
upper-cased, stripped request. -/
def sectiontypeInfo (name : List Char) :
    Option (List Char × List Char × List Char) :=
  memBlocks.find? (fun b => b.1 == pupper (pstrip name))

/-- The fields of a parsed `SectionData` that `starting_address` reads:
the memory block name and the optional raw offset string the parser stored
in `block_offset`. -/
structure SectionModel where
  blockName : List Char
  blockOffset : Option (List Char)
  deriving DecidableEq, Repr

/-- Modelled from the spec: the constant `ZERO_STR` is imported by
`section.py` from `core/constants.py` but is missing there; the spec says
the offset defaults to 0, so it must be a zero-valued decimal Expression
literal (three characters, since the Expression grammar requires at least
three). -/
def ZERO_STR : List Char := ['0', '0', '0']

/-- Python `str(int)` as used inside `f"0{...}"`. -/
def intToDecChars (i : Int) : List Char :=
  if i < 0 then '-' :: natToDigits 10 i.natAbs else natToDigits 10 i.toNat

/-- The offset Expression `starting_address` ends up using: the parsed
`block_offset` string when it parses (`Section.memory_block_offset`), the
default `Expr(ZERO_STR)` when it is absent or invalid. -/
def offsetExpr (sec : SectionModel) : Except Err Components :=
  match sec.blockOffset with
  | none => validateExpr ZERO_STR
  | some ostr =>
    match validateExpr ostr with
    | .ok oc => .ok oc
    | .error _ => validateExpr ZERO_STR

/-- `Section.starting_address`: `None` without a valid memory block,
otherwise `Expr(f"0{start.integer_value + offset.integer_value}")` — a
decimal Expression of the sum, whose construction raises when the sum is
not a representable decimal Expression. -/
def startingAddress (sec : SectionModel) : Except Err (Option Components) :=
  match sectiontypeInfo sec.blockName with
  | none => .ok none
  | some b => do
    let startC ← validateExpr b.2.1
    let offC ← offsetExpr sec
    let res ← validateExpr ('0' :: intToDecChars (integerValue startC + integerValue offC))
    pure (some res)

theorem padLeft_zero (l : List Char) : padLeft 0 l = l := by
  simp [padLeft]

/-- Reduction of an `Except` bind on a success value. -/
theorem ebind_ok {α β : Type} (a : α) (f : α → Except Err β) :
    (do let x ← Except.ok a; f x : Except Err β) = f a := rfl

theorem validateDesc_val_err (d : BaseDescriptor) (wrd : List Char)
    (hall : wrd.all (charsetOf d.base) = true)
    (hlen : d.chars.min ≤ wrd.length ∧ wrd.length < d.chars.max)
    (hnum : d.base ∈ NUMERIC_BASES)
    (hval : ¬(d.limits.min ≤ digitsToNat d.base.toNat wrd ∧
              digitsToNat d.base.toNat wrd < d.limits.max)) :
    validateDesc d wrd = .error .minMaxValErr := by
  unfold validateDesc
  rw [if_neg (by simp [hall]), if_neg (not_not_intro hlen), if_pos hnum,
      if_pos hval]

/-- Parsing `0`-prefixed decimal digits of a value at or above 65536 fails
the decimal descriptor's value range check. -/
theorem parse_dec_value_err (k v : Nat) (hk : k ≤ 5) (hv : 65536 ≤ v)
    (hv2 : v < 100000) :
    validateExpr ('0' :: padLeft k (natToDigits 10 v)) = .error .minMaxValErr := by
  set w := padLeft k (natToDigits 10 v) with hw
  have hdig := padded_dec_all k v
  have hd1 : (natToDigits 10 v).length ≤ 5 :=
    natToDigits_len_le 10 (by omega) 5 v (by norm_num; omega) (by omega)
  have hd4 : 2 ≤ (natToDigits 10 v).length :=
    natToDigits_len_ge2 10 v (by omega) (by omega)
  have hwlen : w.length = max k (natToDigits 10 v).length := by
    rw [hw, padLeft_length]
  have hval : digitsToNat 10 w = v := by
    rw [hw, digitsToNat_padLeft, digitsToNat_natToDigits 10 (by omega) (by omega)]
  exact validateExpr_build_err ['0'] w DEC_DSC .decimal fmtD02 .minMaxValErr
    (by decide)
    (fun c hc => (isDigitCh_props c (hdig c hc)).1)
    (findPfx_0 w (fun c hc => (isDigitCh_props c (hdig c hc)).2.1))
    (by
      unfold selectComponents
      rw [if_neg (by decide), if_neg (by decide), if_pos rfl])
    (by simp; omega)
    (validateDesc_val_err DEC_DSC w
      (by
        rw [List.all_eq_true]
        intro c hc
        show charsetOf 10 c = true
        simpa [charsetOf] using hdig c hc)
      (by constructor <;> simp [DEC_DSC] <;> omega)
      (by decide)
      (by
        have h5 : digitsToNat DEC_DSC.base.toNat w = v := hval
        rw [h5]
        simp [DEC_DSC, MAX_16BIT_VALUE]
        omega))

/-- The SECTION of the spec's example, as the parser stores it:
`SECTION "coolstuff", WRAM0[$4567]`. -/
def coolstuffSection : SectionModel :=
  ⟨['W', 'R', 'A', 'M', '0'], some ['$', '4', '5', '6', '7']⟩

/-- Expansion of `starting_address` once the block and both Expressions are
known. -/
theorem startingAddress_expand (sec : SectionModel)
    (b : List Char × List Char × List Char) (startC offC : Components)
    (hinfo : sectiontypeInfo sec.blockName = some b)
    (hstart : validateExpr b.2.1 = .ok startC)
    (hoffc : offsetExpr sec = .ok offC) :
    startingAddress sec = (do
      let res ← validateExpr
        ('0' :: intToDecChars (integerValue startC + integerValue offC))
      pure (some res)) := by
  unfold startingAddress
  rw [hinfo]
  dsimp only
  rw [hstart]
  simp only [ebind_ok]
  rw [hoffc]
  simp only [ebind_ok]

/-- C3 counterexample: for `SECTION "coolstuff", WRAM0[$4567]` the claimed
starting address `0xC000 + 0x4567 = 0x10567` exceeds `0xFFFF`, and
`starting_address` raises a descriptor value-range error instead of
reporting it. -/
theorem C3_counterexample :
    startingAddress coolstuffSection = .error .minMaxValErr ∧
    (0xC000 + 0x4567 : Nat) = 0x10567 ∧ 0xFFFF < (0x10567 : Nat) := by
  refine ⟨?_, by norm_num, by norm_num⟩
  rw [startingAddress_expand coolstuffSection
    (['W', 'R', 'A', 'M', '0'], ['0', 'x', 'C', '0', '0', '0'],
     ['0', 'x', 'C', 'F', 'F', 'F'])
    ⟨HEX16_DSC, .hexidecimal, ⟨['0', 'x'], ['C', '0', '0', '0'], []⟩, fmtX04⟩
    ⟨HEX16_DSC, .hexidecimal, ⟨['$'], ['4', '5', '6', '7'], []⟩, fmtX04⟩
    (by rfl) (by rfl) (by rfl)]
  rw [show integerValue
        ⟨HEX16_DSC, .hexidecimal, ⟨['0', 'x'], ['C', '0', '0', '0'], []⟩, fmtX04⟩ +
      integerValue ⟨HEX16_DSC, .hexidecimal, ⟨['$'], ['4', '5', '6', '7'], []⟩, fmtX04⟩
      = (66919 : Int) from by decide]
  have hchars : intToDecChars 66919 = padLeft 0 (natToDigits 10 66919) := by
    rw [intToDecChars, if_neg (by omega), padLeft_zero]
    rfl
  rw [hchars, parse_dec_value_err 0 66919 (by omega) (by omega) (by omega)]
  rfl

/-- C3 amended: for every Section with a valid memory block, when the block
start plus the offset (0 when no offset is given) lies in `10..65535` —
i.e. is representable as a decimal Expression — `starting_address` reports
exactly that sum; for `WRAM0[$4567]` the sum `0x10567` exceeds `0xFFFF`
and the property instead raises a descriptor error. -/
theorem C3_starting_address_amended (sec : SectionModel)
    (b : List Char × List Char × List Char) (startC offC : Components)
    (hinfo : sectiontypeInfo sec.blockName = some b)
    (hstart : validateExpr b.2.1 = .ok startC)
    (hoffc : offsetExpr sec = .ok offC)
    (hlo : 10 ≤ integerValue startC + integerValue offC)
    (hhi : integerValue startC + integerValue offC ≤ 65535) :
    ∃ res, startingAddress sec = .ok (some res) ∧
      integerValue res = integerValue startC + integerValue offC := by
  unfold startingAddress
  rw [hinfo]
  dsimp only
  rw [hstart]
  simp only [ebind_ok]
  rw [hoffc]
  simp only [ebind_ok]
  have hS0 : 0 ≤ integerValue startC + integerValue offC := by omega
  have hchars : intToDecChars (integerValue startC + integerValue offC)
      = padLeft 0 (natToDigits 10 (integerValue startC + integerValue offC).toNat) := by
    rw [intToDecChars, if_neg (by omega), padLeft_zero]
  rw [hchars]
  obtain ⟨hp, hval⟩ := parse_dec 0 (integerValue startC + integerValue offC).toNat
    (by omega) (by omega) (Or.inr (by omega))
  rw [hp]
  simp only [ebind_ok]
  refine ⟨_, rfl, ?_⟩
  rw [hval, Int.toNat_of_nonneg hS0]

/-- Witness for the amended C3: `SECTION "x", ROMX[$0100]` has starting
address `0x4000 + 0x0100 = 0x4100`. -/
theorem C3_witness :
    ∃ res, startingAddress ⟨['R', 'O', 'M', 'X'], some ['$', '0', '1', '0', '0']⟩
        = .ok (some res) ∧
      integerValue res =
        integerValue ⟨HEX16_DSC, .hexidecimal, ⟨['0', 'x'], ['4', '0', '0', '0'], []⟩, fmtX04⟩ +
        integerValue ⟨HEX16_DSC, .hexidecimal, ⟨['$'], ['0', '1', '0', '0'], []⟩, fmtX04⟩ :=
  C3_starting_address_amended ⟨['R', 'O', 'M', 'X'], some ['$', '0', '1', '0', '0']⟩
    (['R', 'O', 'M', 'X'], ['0', 'x', '4', '0', '0', '0'], ['0', 'x', '7', 'F', 'F', 'F'])
    ⟨HEX16_DSC, .hexidecimal, ⟨['0', 'x'], ['4', '0', '0', '0'], []⟩, fmtX04⟩
    ⟨HEX16_DSC, .hexidecimal, ⟨['$'], ['0', '1', '0', '0'], []⟩, fmtX04⟩
    (by rfl) (by rfl) (by rfl) (by decide) (by decide)

/-! The Symbol name validation (`core/symbol.py`). -/

/-- The `SymbolScope` constants. -/
inductive SymbolScope where
  | PRIVATE | LOCAL | GLOBAL
  deriving DecidableEq, Repr

/-- Membership in the strip set of `SymbolUtils.clean_name`
(`name.strip(".:")`). -/
def isDotColon (c : Char) : Bool := c == '.' || c == ':'

/-- `SymbolUtils.clean_name`: Python `name.strip(".:")` removes leading and
trailing `.`/`:` characters. -/
def cleanName (l : List Char) : List Char :=
  ((l.dropWhile isDotColon).reverse.dropWhile isDotColon).reverse

/-- `SymbolUtils.valid_symbol_chars`: letters, digits, `.`, `:`, `_`. -/
def isSymbolCh (c : Char) : Bool :=
  isLetterCh c || isDigitCh c || c == '.' || c == ':' || c == '_'

/-- `SymbolUtils.symbol_has_valid_chars`. -/
def symbolHasValidChars (name : List Char) : Bool :=
  name.all isSymbolCh

/-- `SymbolUtils.name_has_valid_chars`: build the string Expression
`'{clean}'` and report whether it validates.  (The `ExpressionBoundsError`
alias this code catches is itself missing from src's `exception.py`; any
expression-validation failure is treated as invalid, which is the only
reading under which the function can return `False` at all.) -/
def nameHasValidChars (name : List Char) : Bool :=
  match validateExpr (quoteS :: (cleanName name ++ [quoteS])) with
  | .ok _ => true
  | .error _ => false

/-- `Symbol._has_valid_decorators`.  Notes kept from the source: the check
`clean[0].isalpha is False` compares a bound method object with `False` and
is therefore never taken in Python, so only the embedded `.`/`:` counts
reject at that step; `invalid |= extn and stop_count` treats the integer
`stop_count` by truthiness. -/
def hasValidDecorators (name : List Char) : Bool :=
  if symbolHasValidChars name = false ∨ nameHasValidChars name = false then false
  else if (cleanName name).count '.' ≠ 0 ∨ (cleanName name).count ':' ≠ 0 then false
  else
    let stopCount := name.count '.'
    let colonCount := name.count ':'
    let extn : Bool :=
      [':', ':'].isSuffixOf name && colonCount == 2 && stopCount == 0
    let loc : Bool :=
      [':'].isSuffixOf name && colonCount == 1 && stopCount == 0
    let priv : Bool :=
      ['.'].isPrefixOf name && !extn && !loc && stopCount == 1
    let invalid1 : Bool := !priv && !loc && !extn
    let invalid2 : Bool := decide (1 < stopCount) || decide (2 < colonCount)
    let invalid3 : Bool := extn && stopCount != 0
    let invalid4 : Bool := [':'].isPrefixOf name || ['.'].isSuffixOf name
    !(invalid1 || invalid2 || invalid3 || invalid4)

/-- `Symbol._scope_and_validate`: reject names longer than
`MAX_SYMBOL_LENGTH` or with invalid decorators, then assign the scope by
affix, leading `.` first. -/
def scopeAndValidate (name : List Char) : Option SymbolScope :=
  if MAX_SYMBOL_LENGTH < name.length ∨ hasValidDecorators name = false then none
  else if ['.'].isPrefixOf name then some .PRIVATE
  else if [':', ':'].isSuffixOf name then some .GLOBAL
  else if [':'].isSuffixOf name then some .LOCAL
  else none

/-- The `Symbol` constructor's acceptance: an empty name raises
`InvalidSymbolName`, a `None` scope raises `InvalidSymbolScope`; otherwise
the Symbol is created with the computed scope. -/
def symbolAccepted (name : List Char) : Option SymbolScope :=
  if name = [] then none else scopeAndValidate name

/-- The name `.local_global::` from the repo's own
`core_tests.py::test_invalid_symbol_names`. -/
def dotLocalGlobalName : List Char :=
  ['.', 'l', 'o', 'c', 'a', 'l', '_', 'g', 'l', 'o', 'b', 'a', 'l', ':', ':']

/-- C5: the code accepts `.local_global::` and gives it scope `PRIVATE`,
although the name ends with `::`; the claim (and the repo's own test, which
expects `InvalidSymbolScope` here, and the module docstring's
mutually-exclusive affix rules) says a valid name's scope is `GLOBAL` iff
it ends with `::`.  This evaluates the code at the failing input. -/
theorem C5_scope_code_bug :
    symbolAccepted dotLocalGlobalName = some SymbolScope.PRIVATE ∧
    [':', ':'].isSuffixOf dotLocalGlobalName = true ∧
    SymbolScope.PRIVATE ≠ SymbolScope.GLOBAL := by
  refine ⟨by decide, by decide, by decide⟩

/-- A 26-character letter body with a `:` suffix — 27 characters in all. -/
def longSymbolName : List Char := List.replicate 26 'a' ++ [':']

/-- C6 counterexample: this name's letter-leading body between affixes has
26 ≤ 32 characters and its decorators are valid, yet the constructor
rejects it — the length check compares the FULL name (27 characters,
affixes included) against `MAX_SYMBOL_LENGTH = 25`, not a 32-character
bound on the body. -/
theorem C6_counterexample :
    (cleanName longSymbolName).length = 26 ∧ (26 : Nat) ≤ 32 ∧
    hasValidDecorators longSymbolName = true ∧
    longSymbolName.length = 27 ∧ MAX_SYMBOL_LENGTH = 25 ∧
    symbolAccepted longSymbolName = none := by
  refine ⟨by decide, by decide, by decide, by decide, by decide, by decide⟩

/-- C6 amended: the Symbol constructor accepts a name exactly when its full
length (affixes included) is at most `MAX_SYMBOL_LENGTH = 25` and its
decorators validate; in particular every name longer than 25 characters is
rejected, regardless of how short the body between the affixes is. -/
theorem C6_length_amended (name : List Char) :
    (symbolAccepted name).isSome = true ↔
      (name.length ≤ MAX_SYMBOL_LENGTH ∧ hasValidDecorators name = true) := by
  constructor
  · intro h
    unfold symbolAccepted at h
    split_ifs at h with hemp
    · simp at h
    · unfold scopeAndValidate at h
      by_cases hcond : MAX_SYMBOL_LENGTH < name.length ∨ hasValidDecorators name = false
      · rw [if_pos hcond] at h
        simp at h
      · push_neg at hcond
        refine ⟨by omega, ?_⟩
        have := hcond.2
        simpa using this
  · intro hp
    obtain ⟨hlen, hdec⟩ := hp
    have hne : name ≠ [] := by
      intro hnil
      subst hnil
      revert hdec
      decide
    unfold symbolAccepted
    rw [if_neg hne]
    unfold scopeAndValidate
    rw [if_neg (by push_neg; exact ⟨by omega, by simp [hdec]⟩)]
    by_cases h1 : ['.'].isPrefixOf name = true
    · rw [if_pos h1]
      simp
    · rw [if_neg h1]
      by_cases h2 : [':', ':'].isSuffixOf name = true
      · rw [if_pos h2]
        simp
      · rw [if_neg h2]
        by_cases h3 : [':'].isSuffixOf name = true
        · rw [if_pos h3]
          simp
        · exfalso
          have h1' : ['.'].isPrefixOf name = false := Bool.eq_false_iff.mpr h1
          have h2' : [':', ':'].isSuffixOf name = false := Bool.eq_false_iff.mpr h2
          have h3' : [':'].isSuffixOf name = false := Bool.eq_false_iff.mpr h3
          unfold hasValidDecorators at hdec
          split_ifs at hdec
          simp [h1', h2', h3'] at hdec

end DmgAsm
